import Mathlib

/-!
# 3D UI visualizer: the selection / edit pipeline of `src/App.js`

A shallow embedding of the pure parts of the React component `App`:
the bounds parser, the scene builder of `handleVisualize`, the two
handlers that write a picked element back into the element list
(`handleDeleteElement`, `handleSaveHighlightChanges`), the import and export
of the main JSON (`handleJsonInputChange`, `handleExportJson`), the
labeled count computed while rendering, and the screens of an archive
(the pairing step of `handleZipUpload`, `loadScreen` and the per-screen
store).

Conventions of the embedding.

* A value returned by `JSON.parse` is a `JSValue`.  The result of reading a
  property is an `Option JSValue`, `none` standing for `undefined`.
* A JSON text held in a React state variable is a `JsonText`: either the
  value it parses to, or a text on which `JSON.parse` throws.
  `JSON.stringify` of a parsed value is the text that parses back to it.
* A statement that can throw returns `Except JSError`.
* A number computed from pixel coordinates is a `JSNumber`: an integer that
  a double holds, an infinity or `NaN`; `parseInt`, `-` and `*` round their
  exact result to the nearest double.
-/

namespace UIVisualizer

/-! ## JavaScript values -/

/-- Values produced by `JSON.parse`.  A number is given by its value; only
integer values that a double holds exactly occur below. -/
inductive JSValue where
  | null
  | bool (b : Bool)
  | num (n : Int)
  | str (s : String)
  | arr (items : List JSValue)
  | obj (fields : List (String × JSValue))

/-- Exceptions raised by the runtime. -/
inductive JSError where
  | typeError
  | syntaxError
  deriving DecidableEq, Repr

/-- A JSON text, identified by what `JSON.parse` does on it. -/
inductive JsonText where
  | valid (v : JSValue)
  | malformed (raw : String)

/-- Model of `JSON.parse(text)`. -/
def JsonText.parse : JsonText → Except JSError JSValue
  | .valid v => .ok v
  | .malformed _ => .error .syntaxError

/-- Model of `JSON.stringify(v, null, 2)` for a parsed value `v`. -/
def JSValue.stringify (v : JSValue) : JsonText := .valid v

/-- Property read `v.key` for the keys used by the component (`bounds`,
`text`, `resource_id`, `information`, `is_clickable`, `screenId`,
`elements`): it throws on `null`, looks the key up in an object, and is
`undefined` on every other value. -/
def JSValue.getProp (v : JSValue) (key : String) : Except JSError (Option JSValue) :=
  match v with
  | .null => .error .typeError
  | .obj fields => .ok (fields.lookup key)
  | _ => .ok none

/-- The value of `v.key` when the read does not throw. -/
def JSValue.prop (v : JSValue) (key : String) : Option JSValue :=
  match v.getProp key with
  | .ok r => r
  | .error _ => none

/-- Property write `v.key = x`: throws on `null` and (strict mode) on a
primitive; replaces the value of an existing key in place or appends a new
key to an object.  On an array the result is the array as `JSON.stringify`
writes it, its items: the array object in memory also holds the named
property until it is serialised, which a `JSValue` does not represent, so a
later read of that property from the same object is outside the
embedding. -/
def JSValue.setProp (v : JSValue) (key : String) (x : JSValue) : Except JSError JSValue :=
  match v with
  | .obj fields =>
    if fields.any (fun p => p.1 == key) then
      .ok (.obj (fields.map (fun p => if p.1 == key then (p.1, x) else p)))
    else
      .ok (.obj (fields ++ [(key, x)]))
  | .arr items => .ok (.arr items)
  | _ => .error .typeError

/-- Strict equality `a === b` of two values read from two different parse
results: primitives compare by value, arrays and objects are distinct
references. -/
def strictEq : Option JSValue → Option JSValue → Bool
  | none, none => true
  | some .null, some .null => true
  | some (.bool a), some (.bool b) => a == b
  | some (.num a), some (.num b) => a == b
  | some (.str a), some (.str b) => a == b
  | _, _ => false

/-- The truthiness of a value (`ToBoolean`). -/
def truthy : Option JSValue → Bool
  | none => false
  | some .null => false
  | some (.bool b) => b
  | some (.num n) => n != 0
  | some (.str s) => s != ""
  | some (.arr _) => true
  | some (.obj _) => true

/-! ## Numbers -/

/-- The Number values that arise from `parseInt`, `-` and `*` on pixel
coordinates: an integer that is the value of a double, an infinity, or
`NaN`.  The two zeros are not distinguished (no operation of the component
tells them apart). -/
inductive JSNumber where
  | finite (n : Int)
  | infinity (negative : Bool)
  | nan
  deriving DecidableEq, Repr

/-- The least `shift` with `n / 2 ^ shift < 2 ^ 53`, found by halving. -/
def findShift : Nat → Nat → Nat
  | 0, _ => 0
  | fuel + 1, n => if n < 2 ^ 53 then 0 else findShift fuel (n / 2) + 1

/-- A natural number rounded to the nearest natural number with at most 53
significant bits, ties to the even significand (the rounding of a double). -/
def roundMagnitude (n : Nat) : Nat :=
  if n ≤ 2 ^ 53 then n
  else
    let shift := findShift n n
    let q := n / 2 ^ shift
    let r := n % 2 ^ shift
    let half := 2 ^ (shift - 1)
    (if half < r ∨ (r = half ∧ q % 2 = 1) then q + 1 else q) * 2 ^ shift

/-- The bound `2 ^ 1024`: a rounded magnitude that reaches it overflows. -/
def overflowBound : Nat := 2 ^ 256 * 2 ^ 256 * 2 ^ 256 * 2 ^ 256

/-- The Number value of a mathematical integer: the nearest double, or an
infinity on overflow. -/
def JSNumber.ofInt (z : Int) : JSNumber :=
  let m := roundMagnitude z.natAbs
  if overflowBound ≤ m then .infinity (decide (z < 0))
  else .finite (if z < 0 then -(m : Int) else (m : Int))

/-- The operator `a - b` on these numbers. -/
def JSNumber.sub : JSNumber → JSNumber → JSNumber
  | .finite a, .finite b => JSNumber.ofInt (a - b)
  | .nan, _ => .nan
  | _, .nan => .nan
  | .infinity s, .infinity t => if s = t then .nan else .infinity s
  | .infinity s, .finite _ => .infinity s
  | .finite _, .infinity t => .infinity (!t)

/-- The operator `a * b` on these numbers. -/
def JSNumber.mul : JSNumber → JSNumber → JSNumber
  | .finite a, .finite b => JSNumber.ofInt (a * b)
  | .nan, _ => .nan
  | _, .nan => .nan
  | .infinity s, .infinity t => .infinity (s != t)
  | .infinity s, .finite b => if b = 0 then .nan else .infinity (s != decide (b < 0))
  | .finite a, .infinity t => if a = 0 then .nan else .infinity (t != decide (a < 0))

/-- The test `v > 0`, as the sort makes it on the result of a comparator. -/
def JSNumber.isPositive : JSNumber → Bool
  | .finite n => decide (0 < n)
  | .infinity negative => !negative
  | .nan => false

/-- White space and line terminators, as stripped by `String.prototype.trim`
and skipped by `parseInt`. -/
def isWhiteSpace (c : Char) : Bool :=
  let n := c.toNat
  n == 9 || n == 10 || n == 11 || n == 12 || n == 13 || n == 32 || n == 160
    || n == 0x1680 || (0x2000 ≤ n && n ≤ 0x200A) || n == 0x2028 || n == 0x2029
    || n == 0x202F || n == 0x205F || n == 0x3000 || n == 0xFEFF

/-- The characters of `s.trim()`. -/
def trimChars (s : List Char) : List Char :=
  ((s.dropWhile isWhiteSpace).reverse.dropWhile isWhiteSpace).reverse

/-- Model of `s.trim()`. -/
def jsTrim (s : String) : String := String.mk (trimChars s.data)

/-! ## `parseInt` and the bounds regular expression -/

/-- The class `\d`. -/
def isDigit (c : Char) : Bool := 48 ≤ c.toNat && c.toNat ≤ 57

/-- Value of a character as a digit in some radix up to 36. -/
def digitValue (c : Char) : Option Nat :=
  let n := c.toNat
  if 48 ≤ n ∧ n ≤ 57 then some (n - 48)
  else if 97 ≤ n ∧ n ≤ 122 then some (n - 87)
  else if 65 ≤ n ∧ n ≤ 90 then some (n - 55)
  else none

/-- Longest prefix of digits of the radix, as digit values. -/
def takeRadixDigits (radix : Nat) : List Char → List Nat
  | [] => []
  | c :: t =>
    match digitValue c with
    | some d => if d < radix then d :: takeRadixDigits radix t else []
    | none => []

/-- The optional sign of `parseInt`: whether it is a minus, and the rest. -/
def stripSign : List Char → Bool × List Char
  | [] => (false, [])
  | c :: t => if c = '-' then (true, t) else if c = '+' then (false, t) else (false, c :: t)

/-- The input starts with `0x` or `0X`. -/
def hasHexPrefix : List Char → Bool
  | c :: x :: _ => c == '0' && (x == 'x' || x == 'X')
  | _ => false

/-- The unsigned part of `parseInt`: radix 16 after a hex prefix and 10
otherwise, then the longest run of digits; `none` when there is no digit. -/
def parseMagnitude (s : List Char) : Option Nat :=
  let radix : Nat := if hasHexPrefix s then 16 else 10
  let ds := takeRadixDigits radix (if hasHexPrefix s then s.drop 2 else s)
  if ds.isEmpty then none else some (ds.foldl (fun acc d => radix * acc + d) 0)

/-- Model of `parseInt(s)` (no radix argument): `NaN` when there is no
digit, else the Number value of the signed integer read, which is the double
nearest to it (ECMAScript lets an engine replace the digits after the 20th
by zeros before it rounds; the exact rounding is what V8 computes). -/
def parseInt (s : List Char) : JSNumber :=
  let signed := stripSign (s.dropWhile isWhiteSpace)
  match parseMagnitude signed.2 with
  | none => .nan
  | some n => JSNumber.ofInt (if signed.1 then -(n : Int) else (n : Int))

/-- One literal character of the pattern. -/
def expectChar (c : Char) : List Char → Option (List Char)
  | [] => none
  | x :: t => if x = c then some t else none

/-- The group `(-?\d+)` at the head of the input: the captured text and the
rest of the input.  Both quantifiers are greedy. -/
def matchInt (s : List Char) : Option (List Char × List Char) :=
  let sign : List Char := match s with
    | c :: _ => if c = '-' then ['-'] else []
    | [] => []
  let r := s.drop sign.length
  let ds := r.takeWhile isDigit
  if ds.isEmpty then none else some (sign ++ ds, r.dropWhile isDigit)

/-- The four captures of a match. -/
structure Captures where
  m1 : List Char
  m2 : List Char
  m3 : List Char
  m4 : List Char
  deriving DecidableEq, Repr

/-- The pattern `\[(-?\d+),(-?\d+)\]\[(-?\d+),(-?\d+)\]` anchored at the head
of the input. -/
def matchHere (s : List Char) : Option Captures := do
  let s ← expectChar '[' s
  let (a, s) ← matchInt s
  let s ← expectChar ',' s
  let (b, s) ← matchInt s
  let s ← expectChar ']' s
  let s ← expectChar '[' s
  let (c, s) ← matchInt s
  let s ← expectChar ',' s
  let (d, s) ← matchInt s
  let _ ← expectChar ']' s
  pure ⟨a, b, c, d⟩

/-- Model of `boundsString.match(/.../)`: the match that starts leftmost. -/
def regexMatch : List Char → Option Captures
  | [] => none
  | c :: t =>
    match matchHere (c :: t) with
    | some m => some m
    | none => regexMatch t

/-- The result `{ left, top, right, bottom }` of `parseBounds`. -/
structure Bounds where
  left : JSNumber
  top : JSNumber
  right : JSNumber
  bottom : JSNumber
  deriving DecidableEq, Repr

/-- The body of `parseBounds` on a non-empty string argument: the match and
the four `parseInt` calls. -/
def parseBoundsString (s : String) : Option Bounds :=
  match regexMatch s.data with
  | none => none
  | some m => some ⟨parseInt m.m1, parseInt m.m2, parseInt m.m3, parseInt m.m4⟩

/-- Model of `parseBounds(boundsString)`: a falsy argument gives `null`, a
string is matched against the pattern, and `.match` of any other truthy
value is not a function. -/
def parseBounds (boundsString : Option JSValue) : Except JSError (Option Bounds) :=
  if !truthy boundsString then .ok none
  else
    match boundsString with
    | some (.str s) => .ok (parseBoundsString s)
    | _ => .error .typeError

/-! ## The scene builder of `handleVisualize` -/

/-- An entry `{ element, bounds, area }` of `elementsWithArea`. -/
structure Item where
  element : JSValue
  bounds : Bounds
  area : JSNumber

/-- The callback of `uiElements.map(...)`: `null` (here `none`) for an
element without parseable bounds. -/
def mapElement (element : JSValue) : Except JSError (Option Item) := do
  let b ← element.getProp "bounds"
  let bounds ← parseBounds b
  match bounds with
  | none => pure none
  | some bounds =>
    pure (some ⟨element, bounds,
      (bounds.right.sub bounds.left).mul (bounds.bottom.sub bounds.top)⟩)

/-- The call `uiElements.map(...)`, left to right. -/
def mapElements : List JSValue → Except JSError (List (Option Item))
  | [] => pure []
  | e :: es => do
    let x ← mapElement e
    let xs ← mapElements es
    pure (x :: xs)

/-- The comparator `(a, b) => b.area - a.area`. -/
def compareArea (a b : Item) : JSNumber := b.area.sub a.area

/-- Model of `Array.prototype.sort(cmp)`: the stable sort that puts `a`
after `b` only when `cmp(a, b) > 0` (straight insertion, from the right).
For a comparator that is a consistent ordering of the elements this is the
order ECMAScript prescribes; for any other comparator (one that returns
`NaN` for some pairs only) the standard leaves the order to the engine, and
no statement below depends on the order in that case. -/
def arraySort {α : Type} (cmp : α → α → JSNumber) (l : List α) : List α :=
  l.insertionSort (fun a b => (cmp a b).isPositive = false)

/-- The expression `Array.isArray(parsedJson) ? parsedJson : []`. -/
def uiElementsOf (parsedJson : JSValue) : List JSValue :=
  match parsedJson with
  | .arr items => items
  | _ => []

/-- The constant `elementsWithArea` of `handleVisualize`. -/
def elementsWithArea (uiElements : List JSValue) : Except JSError (List Item) := do
  let mapped ← mapElements uiElements
  pure (arraySort compareArea (mapped.filterMap id))

/-- A box added to `mainGroup`: the width, height and depth of its geometry,
its colour, the `z` of its position (`index * 10`, exact for an array index)
and the element stored in `userData`.  The `x` and `y` of the position,
halves computed in floating point, are not part of the embedding. -/
structure Mesh where
  width : JSNumber
  height : JSNumber
  depth : Int
  color : Nat
  z : Int
  userData : JSValue

/-- The constant `isHighlighted`:
`highlightParsedJson && element.bounds === highlightParsedJson.bounds`. -/
def isHighlighted (element highlightParsedJson : JSValue) : Except JSError Bool :=
  if !truthy (some highlightParsedJson) then pure false
  else do
    let a ← element.getProp "bounds"
    let b ← highlightParsedJson.getProp "bounds"
    pure (strictEq a b)

/-- The method call `v.trim()`: only a string has the method. -/
def callTrim : Option JSValue → Except JSError String
  | some (.str s) => pure (jsTrim s)
  | _ => throw .typeError

/-- The constant `isLabeled`:
`element.information && element.information.trim() !== ''`. -/
def isLabeled (element : JSValue) : Except JSError Bool := do
  let info ← element.getProp "information"
  if !truthy info then pure false
  else do
    let t ← callTrim info
    pure (t != "")

/-- The colour chosen in the loop body of `handleVisualize`. -/
def chooseColor (element highlightParsedJson : JSValue) : Except JSError Nat := do
  let highlighted ← isHighlighted element highlightParsedJson
  let labeled ← isLabeled element
  let clickable ← element.getProp "is_clickable"
  if highlighted then pure 0xef4444
  else if labeled then pure 0x8b5cf6
  else if truthy clickable then pure 0x10b981
  else pure 0xf59e0b

/-- The constants `SCREEN_WIDTH` and `SCREEN_HEIGHT`. -/
def SCREEN_WIDTH : Int := 1080

/-- See `SCREEN_WIDTH`. -/
def SCREEN_HEIGHT : Int := 2400

/-- The body of `elementsWithArea.forEach((item, index) => ...)`. -/
def buildMesh (highlightParsedJson : JSValue) (item : Item) (index : Nat) :
    Except JSError Mesh := do
  let width := item.bounds.right.sub item.bounds.left
  let height := item.bounds.bottom.sub item.bounds.top
  let color ← chooseColor item.element highlightParsedJson
  pure
    { width := width, height := height, depth := 20, color := color,
      z := (index : Int) * 10,
      userData := item.element }

/-- The loop `forEach` from a given index on. -/
def buildMeshesFrom (highlightParsedJson : JSValue) : List Item → Nat → Except JSError (List Mesh)
  | [], _ => pure []
  | item :: rest, index => do
    let m ← buildMesh highlightParsedJson item index
    let ms ← buildMeshesFrom highlightParsedJson rest (index + 1)
    pure (m :: ms)

/-- The whole loop `elementsWithArea.forEach(...)`. -/
def buildMeshes (highlightParsedJson : JSValue) (items : List Item) : Except JSError (List Mesh) :=
  buildMeshesFrom highlightParsedJson items 0

/-! ## The component state and its handlers -/

/-- An entry of the state variable `screens`. -/
structure Screen where
  number : JSNumber
  json : JsonText
  screenshot : String
  screenName : String

/-- The React state of `App` together with the scene kept in
`threeJsObjects`.  `selectedElement` is `null` when nothing is selected;
`screenName` is a string typed by the user or the `screenId` of an imported
screen object, whatever its type;
`localStorage` maps a screen number (the key `screen_<number>`) to the saved
JSON text; `sceneReady` says that the three.js scene exists. -/
structure AppState where
  jsonInput : JsonText
  highlightJsonInput : JsonText
  screenName : JSValue
  elementCount : Nat
  isLoading : Bool
  error : String
  selectedElement : JSValue
  isHighlightModified : Bool
  elementInfo : JSValue
  isZipUploaded : Bool
  currentScreenIndex : Nat
  screens : List Screen
  localStorage : List (JSNumber × JsonText)
  sceneReady : Bool
  mainGroup : List Mesh
  intersectedObject : Option Mesh
  outlineMesh : Bool
  tooltipShown : Bool
  screenshotUrl : String
  showScreenshot : Bool

/-- Model of `showError(message)`: the message is put in `error`. -/
def showError (s : AppState) (message : String) : AppState :=
  { s with error := message }

/-- Model of `saveToLocalStorage(screenNumber, jsonData)`. -/
def saveToLocalStorage (s : AppState) (screenNumber : JSNumber) (jsonData : JsonText) :
    AppState :=
  { s with localStorage :=
      (screenNumber, jsonData) :: s.localStorage.filter (fun p => p.1 != screenNumber) }

/-- The text tested by `highlightJsonInput.trim()`. -/
def JsonText.isBlank : JsonText → Bool
  | .valid _ => false
  | .malformed raw => jsTrim raw == ""

/-- The `try` block at the top of `handleVisualize`: both parse results. -/
def parseInputs (s : AppState) : Except JSError (JSValue × JSValue) := do
  let parsedJson ← s.jsonInput.parse
  let highlightParsedJson ←
    if s.highlightJsonInput.isBlank then pure JSValue.null else s.highlightJsonInput.parse
  pure (parsedJson, highlightParsedJson)

/-- Model of `handleVisualize`.  An error result is an exception that
escapes the function.  The opening `setIsLoading(true)` is overwritten by
the `setIsLoading(false)` of every path that returns.  The camera framing is
not part of the embedding. -/
def handleVisualize (s : AppState) : Except JSError AppState :=
  if !s.sceneReady then pure { s with isLoading := false }
  else
    match parseInputs s with
    | .error _ => pure { showError s "Invalid JSON format!" with isLoading := false }
    | .ok (parsedJson, highlightParsedJson) => do
      let s := { s with mainGroup := [], outlineMesh := false, intersectedObject := none,
                        tooltipShown := false }
      let items ← elementsWithArea (uiElementsOf parsedJson)
      let s := { s with elementCount := items.length }
      let meshes ← buildMeshes highlightParsedJson items
      pure { s with mainGroup := meshes, isLoading := false }

/-- The comparison used by both handlers: `el.bounds === other.bounds &&
el.text === other.text && el.resource_id === other.resource_id`. -/
def sameKey (el other : JSValue) : Except JSError Bool := do
  let a ← el.getProp "bounds"
  let b ← other.getProp "bounds"
  if !strictEq a b then pure false
  else do
    let a ← el.getProp "text"
    let b ← other.getProp "text"
    if !strictEq a b then pure false
    else do
      let a ← el.getProp "resource_id"
      let b ← other.getProp "resource_id"
      pure (strictEq a b)

/-- Model of `xs.filter(el => !pred(el))` for a callback that can throw. -/
def filterOut (pred : JSValue → Except JSError Bool) : List JSValue → Except JSError (List JSValue)
  | [] => pure []
  | el :: rest => do
    let drop ← pred el
    let kept ← filterOut pred rest
    pure (if drop then kept else el :: kept)

/-- Model of `xs.findIndex(pred)`; `none` is `-1`. -/
def findIndex (pred : JSValue → Except JSError Bool) : List JSValue → Except JSError (Option Nat)
  | [] => pure none
  | el :: rest => do
    let found ← pred el
    if found then pure (some 0)
    else do
      let r ← findIndex pred rest
      pure (r.map (· + 1))

/-- The receiver of `.filter` / `.findIndex`: only an array has the method. -/
def asArray : JSValue → Except JSError (List JSValue)
  | .arr items => pure items
  | _ => throw .typeError

/-- The `try` block of `handleDeleteElement`: the new element list. -/
def deleteElements (s : AppState) (elementToDelete : JSValue) : Except JSError (List JSValue) := do
  let parsed ← s.jsonInput.parse
  let currentElements ← asArray parsed
  filterOut (fun el => sameKey el elementToDelete) currentElements

/-- Model of `handleDeleteElement(elementToDelete)`. -/
def handleDeleteElement (s : AppState) (elementToDelete : JSValue) : AppState :=
  match deleteElements s elementToDelete with
  | .ok newElements =>
    { s with jsonInput := (JSValue.arr newElements).stringify, selectedElement := .null }
  | .error _ => showError s "Could not delete element. JSON may be malformed."

/-- The statement `if (elementInfo.trim()) { editedElement.information =
elementInfo.trim(); }`, given the trimmed text. -/
def mergeInformation (editedElement : JSValue) (info : String) : Except JSError JSValue :=
  if info != "" then editedElement.setProp "information" (.str info) else pure editedElement

/-- The part of the `try` block of `handleSaveHighlightChanges` that can
throw: the edited element, the current elements and the index found. -/
def prepareSave (s : AppState) : Except JSError (JSValue × List JSValue × Option Nat) := do
  let editedElement ← s.highlightJsonInput.parse
  let parsed ← s.jsonInput.parse
  let info ← callTrim (some s.elementInfo)
  let editedElement ← mergeInformation editedElement info
  let currentElements ← asArray parsed
  let elementIndex ← findIndex (fun el => sameKey el s.selectedElement) currentElements
  pure (editedElement, currentElements, elementIndex)

/-- Model of `handleSaveHighlightChanges`. -/
def handleSaveHighlightChanges (s : AppState) : AppState :=
  match prepareSave s with
  | .ok (editedElement, currentElements, some elementIndex) =>
    let updatedJson := (JSValue.arr (currentElements.set elementIndex editedElement)).stringify
    let s := { s with jsonInput := updatedJson, selectedElement := editedElement,
                      isHighlightModified := false }
    let s :=
      if s.isZipUploaded && decide (s.screens.length > 0) then
        match s.screens.get? s.currentScreenIndex with
        | some screen => saveToLocalStorage s screen.number updatedJson
        | none => s
      else s
    showError s "Element updated successfully!"
  | .ok (_, _, none) => showError s "Could not find element to update."
  | .error _ => showError s "Invalid JSON format in highlight field!"

/-- The expression `a || fallback`. -/
def orElseValue (a : Option JSValue) (fallback : JSValue) : JSValue :=
  match a with
  | some v => if truthy (some v) then v else fallback
  | none => fallback

/-- Model of the effect on `selectedElement`: when an element is selected,
its JSON becomes the draft, the dirty flag is reset and the information
field is loaded with `selectedElement.information || ''`. -/
def openDraft (s : AppState) : AppState :=
  if truthy (some s.selectedElement) then
    { s with highlightJsonInput := s.selectedElement.stringify
             isHighlightModified := false
             elementInfo := orElseValue (s.selectedElement.prop "information") (.str "") }
  else s

/-- Model of `handleHighlightJsonChange` for the text typed in the draft. -/
def handleHighlightJsonChange (s : AppState) (value : JsonText) : AppState :=
  { s with highlightJsonInput := value, isHighlightModified := true }

/-- Model of `handleElementInfoChange` for the text typed in the field. -/
def handleElementInfoChange (s : AppState) (value : String) : AppState :=
  { s with elementInfo := .str value, isHighlightModified := true }

/-- Model of `handleJsonInputChange` for the text typed or pasted in the
main JSON field: the text is stored, and when it parses to a value with a
truthy `screenId` and an array `elements`, the screen name and the element
list are taken from it.  An exception of the `try` block is swallowed. -/
def handleJsonInputChange (s : AppState) (input : JsonText) : AppState :=
  let s := { s with jsonInput := input }
  match input.parse with
  | .error _ => s
  | .ok parsed =>
    match parsed.getProp "screenId" with
    | .ok (some screenId) =>
      if truthy (some screenId) then
        match parsed.getProp "elements" with
        | .ok (some (.arr elements)) =>
          { s with screenName := screenId, jsonInput := (JSValue.arr elements).stringify }
        | _ => s
      else s
    | _ => s

/-- The constant `screenData` of `handleExportJson`:
`{ screenId: screenName || 'unnamed_screen', elements: elements }`. -/
def exportScreenData (s : AppState) : Except JSError JSValue := do
  let elements ← s.jsonInput.parse
  pure (.obj [("screenId", orElseValue (some s.screenName) (.str "unnamed_screen")),
    ("elements", elements)])

/-- Model of `handleExportJson`: the text offered for download, if any, and
the state with the message shown.  The download itself is not part of the
embedding. -/
def handleExportJson (s : AppState) : AppState × Option JsonText :=
  match exportScreenData s with
  | .ok screenData => (showError s "JSON exported successfully!", some screenData.stringify)
  | .error _ => (showError s "Failed to export JSON!", none)

/-- Model of `xs.filter(pred)` for a callback that can throw. -/
def filterKeep (pred : JSValue → Except JSError Bool) : List JSValue → Except JSError (List JSValue)
  | [] => pure []
  | el :: rest => do
    let keep ← pred el
    let kept ← filterKeep pred rest
    pure (if keep then el :: kept else kept)

/-- The expression rendered after `Labeled elements:`,
`JSON.parse(jsonInput).filter(el => el.information &&
el.information.trim() !== '').length`. -/
def labeledElementsCount (s : AppState) : Except JSError Nat := do
  let parsed ← s.jsonInput.parse
  let elements ← asArray parsed
  let labeled ← filterKeep isLabeled elements
  pure labeled.length

/-- The computations on the main JSON made when `App` is rendered: none on
the upload screen, the labeled count in the labeling interface.  An error is
an exception thrown while rendering. -/
def renderInfo (s : AppState) : Except JSError (Option Nat) :=
  if !s.isZipUploaded then pure none
  else do
    let n ← labeledElementsCount s
    pure (some n)

/-! ## Screens: the archive and the per-screen store -/

/-- Model of `loadFromLocalStorage(screenNumber)`: the field `json` of the
saved record, `none` when there is no record. -/
def loadFromLocalStorage (s : AppState) (screenNumber : JSNumber) : Option JsonText :=
  s.localStorage.lookup screenNumber

/-- The `else` branch of `loadScreen` up to the save: the bundled JSON is
parsed and either the screen format is detected, or the text is used as it
is under the screen's own name. -/
def useOriginalData (s : AppState) (screen : Screen) : Except JSError AppState := do
  let parsed ← screen.json.parse
  let screenId ← parsed.getProp "screenId"
  match screenId with
  | some id =>
    if truthy (some id) then
      match parsed.getProp "elements" with
      | .ok (some (.arr elements)) =>
        pure { s with screenName := id, jsonInput := (JSValue.arr elements).stringify }
      | _ => pure { s with screenName := .str screen.screenName, jsonInput := screen.json }
    else pure { s with screenName := .str screen.screenName, jsonInput := screen.json }
  | none => pure { s with screenName := .str screen.screenName, jsonInput := screen.json }

/-- Model of `loadScreen(screen)`. -/
def loadScreen (s : AppState) (screen : Screen) : AppState :=
  let savedData := loadFromLocalStorage s screen.number
  let s := { s with screenshotUrl := screen.screenshot, showScreenshot := true }
  match savedData with
  | some json => { s with jsonInput := json }
  | none =>
    match useOriginalData s screen with
    | .ok s => saveToLocalStorage s screen.number screen.json
    | .error _ => showError s "Failed to load screen data"

/-- What JSZip gives for a file of the archive: its content read as a string
(a JSON text) and read in base64. -/
structure FileData where
  text : JsonText
  base64 : String

/-- An entry `[filename, fileData]` of `Object.entries(zipContent.files)`. -/
structure ZipEntry where
  filename : String
  fileData : FileData

/-- Model of `name.endsWith(suffix)`. -/
def endsWith (name suffix : String) : Bool := suffix.data.isSuffixOf name.data

/-- The characters of `s.replace(pattern, '')` for a string pattern: the
first occurrence of the pattern is removed. -/
def removeFirst (pattern : List Char) : List Char → List Char
  | [] => []
  | c :: t =>
    if pattern.isPrefixOf (c :: t) then (c :: t).drop pattern.length
    else c :: removeFirst pattern t

/-- The array `jsonFiles` of `handleZipUpload`. -/
def jsonFilesOf (files : List ZipEntry) : List ZipEntry :=
  files.filter (fun f => endsWith f.filename ".json")

/-- The array `pngFiles` of `handleZipUpload`. -/
def pngFilesOf (files : List ZipEntry) : List ZipEntry :=
  files.filter (fun f => !endsWith f.filename ".json" && endsWith f.filename ".png")

/-- The constant `number` of the matching loop:
`jsonFile.filename.replace('.json', '')`. -/
def stemOf (jsonFile : ZipEntry) : String :=
  String.mk (removeFirst ".json".data jsonFile.filename.data)

/-- The body of the matching loop for one JSON file: the screen pushed, if a
PNG file named `<number>.png` is found. -/
def screenOf (pngFiles : List ZipEntry) (jsonFile : ZipEntry) : Option Screen :=
  let number := stemOf jsonFile
  match pngFiles.find? (fun png => png.filename == number ++ ".png") with
  | some pngFile =>
    some { number := parseInt number.data
           json := jsonFile.fileData.text
           screenshot := "data:image/png;base64," ++ pngFile.fileData.base64
           screenName := "screen_" ++ number }
  | none => none

/-- The comparator `(a, b) => a.number - b.number`. -/
def compareNumber (a b : Screen) : JSNumber := a.number.sub b.number

/-- The pairing step of `handleZipUpload`: the array `screens` after the
matching loop and the sort. -/
def pairScreens (files : List ZipEntry) : List Screen :=
  arraySort compareNumber ((jsonFilesOf files).filterMap (screenOf (pngFilesOf files)))

/-- Model of `handleZipUpload` for a ZIP file that JSZip loads, given its
entries. -/
def handleZipUpload (s : AppState) (files : List ZipEntry) : AppState :=
  let screens := pairScreens files
  let s := { s with screens := screens, isZipUploaded := true, currentScreenIndex := 0 }
  let s := match screens with
    | first :: _ => loadScreen s first
    | [] => s
  showError s ("Successfully loaded " ++ toString screens.length ++ " screens")

/-! ## The grammar of bounds strings, as the specification words it -/

/-- An optionally negative decimal integer, as written in a bounds string:
an optional minus sign and one or more decimal digits. -/
structure IntLit where
  neg : Bool
  digits : List Char
  nonempty : digits ≠ []
  allDigits : ∀ c ∈ digits, isDigit c = true

/-- The characters of the literal. -/
def IntLit.text (a : IntLit) : List Char :=
  if a.neg then '-' :: a.digits else a.digits

/-- The natural number written by a list of decimal digits. -/
def digitsValue (ds : List Char) : Nat :=
  Nat.ofDigits 10 ((ds.map (fun c => c.toNat - 48)).reverse)

/-- The integer the literal denotes. -/
def IntLit.value (a : IntLit) : Int :=
  if a.neg then -(digitsValue a.digits : Int) else (digitsValue a.digits : Int)

/-- The text `[a,b][c,d]` followed by `post`. -/
def boundsTextThen (a b c d : IntLit) (post : List Char) : List Char :=
  '[' :: (a.text ++ ',' :: (b.text ++ ']' :: '[' :: (c.text ++ ',' :: (d.text ++ ']' :: post))))

/-- The text begins with a substring of the form `[a,b][c,d]`. -/
def StartsWithBounds (s : List Char) : Prop :=
  ∃ a b c d post, s = boundsTextThen a b c d post

/-- The text contains a substring of the form `[a,b][c,d]`. -/
def ContainsBounds (s : List Char) : Prop :=
  ∃ pre a b c d post, s = pre ++ boundsTextThen a b c d post

/-- The usual decimal digits of a natural number. -/
def decimalNat (n : Nat) : List Char :=
  if n = 0 then ['0'] else ((Nat.digits 10 n).reverse.map (fun d => Char.ofNat (d + 48)))

/-- The usual decimal text of an integer. -/
def decimal (z : Int) : List Char :=
  if z < 0 then '-' :: decimalNat z.natAbs else decimalNat z.natAbs

/-- The bounds string `[a,b][c,d]` of four integers. -/
def boundsOfInts (a b c d : Int) : String :=
  String.mk ('[' :: (decimal a ++ ',' :: (decimal b ++ ']' :: '[' ::
    (decimal c ++ ',' :: (decimal d ++ [']'])))))

/-! ## The initial state of the component -/

/-- The constant `sampleJsonData`. -/
def sampleJsonData : List JSValue :=
  [ .obj [("bounds", .str "[100,200][980,400]"), ("text", .str "Welcome Screen Title"),
      ("is_clickable", .bool false), ("resource_id", .str "com.example.app:id/title")],
    .obj [("bounds", .str "[400,1800][680,1950]"), ("text", .str "Login Button"),
      ("is_clickable", .bool true), ("resource_id", .str "com.example.app:id/login_button")],
    .obj [("bounds", .str "[0,1195][1080,1404]"), ("class_name", .str "android.widget.LinearLayout"),
      ("content_description", .str "Mummy chat, 1 unread message"), ("is_clickable", .bool true),
      ("resource_id", .str "com.whatsapp:id/contact_row_container"),
      ("text", .str "Mummy | 7:28 PM | https://www.facebook.com/... | 1 unread message")],
    .obj [("bounds", .str "[50,500][300,600]"), ("text", .str "Profile Picture"),
      ("is_clickable", .bool true), ("resource_id", .str "com.example.app:id/profile_pic")],
    .obj [("bounds", .str "[350,500][900,600]"), ("text", .str "User Name Input"),
      ("is_clickable", .bool false), ("resource_id", .str "com.example.app:id/username_input")],
    .obj [("bounds", .str "[0,247][1080,412]"), ("class_name", .str "android.widget.FrameLayout"),
      ("is_clickable", .bool true), ("resource_id", .str "com.whatsapp:id/my_search_bar"),
      ("text", .str "Ask Meta AI or Search")] ]

/-- The constant `sampleScreenName`. -/
def sampleScreenName : String := "login_screen"

/-- The constant `sampleHighlightJson`. -/
def sampleHighlightJson : JSValue :=
  .obj [("bounds", .str "[0,247][1080,412]"), ("class_name", .str "android.widget.FrameLayout"),
    ("is_clickable", .bool true), ("resource_id", .str "com.whatsapp:id/my_search_bar"),
    ("text", .str "Ask Meta AI or Search")]

/-- The state after the `useState` initialisers, with the scene created. -/
def initialState : AppState :=
  { jsonInput := (JSValue.arr sampleJsonData).stringify
    highlightJsonInput := sampleHighlightJson.stringify
    screenName := .str sampleScreenName
    elementCount := 0
    isLoading := false
    error := ""
    selectedElement := .null
    isHighlightModified := false
    elementInfo := .str ""
    isZipUploaded := false
    currentScreenIndex := 0
    screens := []
    localStorage := []
    sceneReady := true
    mainGroup := []
    intersectedObject := none
    outlineMesh := false
    tooltipShown := false
    screenshotUrl := ""
    showScreenshot := false }

/-! ## Elements of the data model -/

/-- An element as far as the scene builder reads it: an object whose `bounds`
is a string or absent (falsy) and whose `information` is a string or absent
(falsy). -/
def isElement (e : JSValue) : Bool :=
  match e with
  | .obj fields =>
    (match fields.lookup "bounds" with
      | some (.str _) => true
      | b => !truthy b) &&
    (match fields.lookup "information" with
      | some (.str _) => true
      | i => !truthy i)
  | _ => false

/-- The value is a JSON object. -/
def isObject : JSValue → Bool
  | .obj _ => true
  | _ => false

/-- The draft can take the information text: the trimmed text is empty, or
the draft is an object or an array. -/
def acceptsInformation (draft : JSValue) (info : String) : Bool :=
  jsTrim info == "" ||
    (match draft with
      | .obj _ => true
      | .arr _ => true
      | _ => false)

/-- The bounds of an element, when `parseBounds(element.bounds)` returns
some. -/
def elementBounds (e : JSValue) : Option Bounds :=
  match e.getProp "bounds" with
  | .ok b =>
    match parseBounds b with
    | .ok r => r
    | .error _ => none
  | .error _ => none

/-- The area `(right - left) * (bottom - top)` of a rectangle, as the code
computes it on Number values. -/
def Bounds.area (b : Bounds) : JSNumber := (b.right.sub b.left).mul (b.bottom.sub b.top)

/-- The area `(right - left) * (bottom - top)` of a rectangle with integer
coordinates, as the specification words it: the product computed on the
integers. -/
def Bounds.exactArea : Bounds → Option Int
  | ⟨.finite l, .finite t, .finite r, .finite b⟩ => some ((r - l) * (b - t))
  | _ => none

/-- The render entry of an element with parseable bounds. -/
def itemOf (e : JSValue) : Option Item :=
  (elementBounds e).map (fun b => ⟨e, b, b.area⟩)

/-- The element has a `bounds` string that is absent or holds no text of the
form `[a,b][c,d]`. -/
def NoBoundsMatch (e : JSValue) : Prop :=
  e.getProp "bounds" = .ok none ∨
    ∃ t, e.getProp "bounds" = .ok (some (.str t)) ∧ ¬ ContainsBounds t.data

/-- The test the scene builder makes for the highlight: a highlight value is
present (truthy) and its `bounds` is strictly equal to the element's. -/
def highlightedBy (element highlight : JSValue) : Bool :=
  truthy (some highlight) && strictEq (element.prop "bounds") (highlight.prop "bounds")

/-- The element carries an `information` text that is not empty once
trimmed. -/
def hasLabel (element : JSValue) : Bool :=
  match element.prop "information" with
  | some (.str t) => jsTrim t != ""
  | _ => false

/-- The element and the highlight have the same natural key: `bounds`, `text`
and `resource_id` are all three strictly equal. -/
def sameNaturalKey (element highlight : JSValue) : Bool :=
  strictEq (element.prop "bounds") (highlight.prop "bounds") &&
  strictEq (element.prop "text") (highlight.prop "text") &&
  strictEq (element.prop "resource_id") (highlight.prop "resource_id")

/-- The element has a non-empty `information` string (no trimming). -/
def hasNonEmptyInformation (element : JSValue) : Bool :=
  match element.prop "information" with
  | some (.str t) => t != ""
  | _ => false

/-- The literal `10`. -/
def lit10 : IntLit := ⟨false, ['1', '0'], by decide, by decide⟩

/-- The literal `-20`. -/
def litNeg20 : IntLit := ⟨true, ['2', '0'], by decide, by decide⟩

/-- The literal `30`. -/
def lit30 : IntLit := ⟨false, ['3', '0'], by decide, by decide⟩

/-- The literal `40`. -/
def lit40 : IntLit := ⟨false, ['4', '0'], by decide, by decide⟩

/-- The colour rule as the specification words it: highlighted, then
non-empty `information`, then `is_clickable` is true, otherwise default. -/
def specColor (highlighted : Bool) (element : JSValue) : Nat :=
  if highlighted then 0xef4444
  else if hasNonEmptyInformation element then 0x8b5cf6
  else if (match element.prop "is_clickable" with
      | some (.bool true) => true
      | _ => false) then 0x10b981
  else 0xf59e0b

/-! ## Concrete inputs used in the examples -/

/-- Three elements of areas 50, 200 and 10, in this order. -/
def areaExample : List JSValue :=
  [ .obj [("bounds", .str "[0,0][10,5]"), ("text", .str "fifty")],
    .obj [("bounds", .str "[0,0][20,10]"), ("text", .str "two hundred")],
    .obj [("bounds", .str "[0,0][5,2]"), ("text", .str "ten")] ]

/-- A strip and a square whose exact areas differ, 9007199515875288 for the
strip and 9007199515875289 for the square, and whose areas computed in
double precision are the same number. -/
def roundingExample : List JSValue :=
  [ .obj [("bounds", .str "[0,0][4344301,2073336888]"), ("text", .str "strip")],
    .obj [("bounds", .str "[0,0][94906267,94906267]"), ("text", .str "square")] ]

/-- The initial state with the two elements of `roundingExample` as main
JSON and an empty highlight field. -/
def roundingState : AppState :=
  { initialState with
    jsonInput := (JSValue.arr roundingExample).stringify
    highlightJsonInput := .malformed "" }

/-- The two elements of the scenario of the specification. -/
def scenarioElements : List JSValue :=
  [ .obj [("bounds", .str "[0,0][100,50]"), ("is_clickable", .bool true)],
    .obj [("bounds", .str "[10,10][50,30]"), ("is_clickable", .bool false)] ]

/-- The scenario: the two elements as main JSON, an empty highlight field. -/
def scenarioState : AppState :=
  { initialState with
    jsonInput := (JSValue.arr scenarioElements).stringify
    highlightJsonInput := .malformed "" }

/-- An element without a `bounds` field, between two sample elements. -/
def noBoundsElement : JSValue :=
  .obj [("text", .str "No bounds here"), ("is_clickable", .bool true)]

/-- The initial state with `noBoundsElement` added to the main JSON. -/
def noBoundsState : AppState :=
  { initialState with
    jsonInput := (JSValue.arr (noBoundsElement :: sampleJsonData)).stringify }

/-- The initial state with the last sample element selected, its JSON in the
highlight field as opened, and a note typed in the information field. -/
def editingState : AppState :=
  { initialState with
    selectedElement := sampleHighlightJson
    elementInfo := .str "  search bar  "
    isHighlightModified := true }

/-- The state `editingState` with the draft replaced by the text `null`. -/
def nullDraftState : AppState :=
  { editingState with highlightJsonInput := (JSValue.null).stringify }

/-- A collection that holds the same element twice. -/
def duplicateState : AppState :=
  { editingState with
    jsonInput := (JSValue.arr [sampleHighlightJson, sampleHighlightJson]).stringify }

/-- An element with the bounds of the highlight below, another text and
another resource id. -/
def sameBoundsElement : JSValue :=
  .obj [("bounds", .str "[0,0][10,10]"), ("text", .str "A"), ("resource_id", .str "id/a")]

/-- A highlight value with the bounds of `sameBoundsElement`. -/
def sameBoundsHighlight : JSValue :=
  .obj [("bounds", .str "[0,0][10,10]"), ("text", .str "B"), ("resource_id", .str "id/b")]

/-- A clickable element whose `information` is one space. -/
def blankInformationElement : JSValue :=
  .obj [("bounds", .str "[0,0][10,10]"), ("information", .str " "), ("is_clickable", .bool true)]

/-- The state `editingState` with the draft replaced by the text `[1, 2]`. -/
def arrayDraftState : AppState :=
  { editingState with highlightJsonInput := (JSValue.arr [.num 1, .num 2]).stringify }

/-- An element that carries an information text. -/
def labeledElement : JSValue :=
  .obj [("bounds", .str "[0,0][10,10]"), ("text", .str "Send"),
    ("information", .str "old note")]

/-- The labeled element is alone in the collection, it has been selected and
opened for editing, and the information field has then been cleared. -/
def clearedInformationState : AppState :=
  handleElementInfoChange
    (openDraft { initialState with
      jsonInput := (JSValue.arr [labeledElement]).stringify
      selectedElement := labeledElement }) ""

/-- The state `editingState` with white space typed in the information
field. -/
def blankInformationState : AppState :=
  handleElementInfoChange editingState "   "

/-- The state `nullDraftState` with a selected element that is not in the
collection. -/
def notFoundNullDraftState : AppState :=
  { nullDraftState with selectedElement := sameBoundsElement }

/-- The state `editingState` with a selected element that is not in the
collection. -/
def notFoundState : AppState :=
  { editingState with selectedElement := sameBoundsElement }

/-- The lookup of `handleSaveHighlightChanges` in a state: the index of the
first element of the main JSON that has the natural key of the selected
element. -/
def lookupSelected (s : AppState) : Except JSError (Option Nat) := do
  let parsed ← s.jsonInput.parse
  let currentElements ← asArray parsed
  findIndex (fun el => sameKey el s.selectedElement) currentElements

/-- The first two sample elements; the second is selected and its draft has
been edited into the JSON of the first, with an empty information field. -/
def collisionState : AppState :=
  { initialState with
    jsonInput := (JSValue.arr (sampleJsonData.take 2)).stringify
    selectedElement := sampleJsonData.getD 1 .null
    highlightJsonInput := (sampleJsonData.getD 0 .null).stringify
    elementInfo := .str ""
    isHighlightModified := true }

/-- A screen object whose `screenId` is the empty string. -/
def emptyIdScreen : JSValue :=
  .obj [("screenId", .str ""), ("elements", .arr sampleJsonData)]

/-- A screen object with a name and the sample elements. -/
def namedScreen : JSValue :=
  .obj [("screenId", .str "home_screen"), ("elements", .arr sampleJsonData)]

/-- The labeling interface with the text `[` typed in the main JSON field. -/
def typingState : AppState :=
  handleJsonInputChange { initialState with isZipUploaded := true } (.malformed "[")

/-- The initial state with one element whose `bounds` is the number 5. -/
def numericBoundsState : AppState :=
  { initialState with
    jsonInput := (JSValue.arr [.obj [("bounds", .num 5), ("text", .str "five")]]).stringify }

/-- The initial state after a first pass of `handleVisualize`. -/
def renderedState : AppState :=
  match handleVisualize initialState with
  | .ok s => s
  | .error _ => initialState

/-- The rendered state after the text `[` is typed in the main JSON field. -/
def brokenJsonState : AppState :=
  handleJsonInputChange renderedState (.malformed "[")

/-- An archive entry with the given name and empty content. -/
def entryNamed (filename : String) : ZipEntry :=
  { filename := filename, fileData := { text := .malformed "", base64 := "" } }

/-- An archive with the pairs of stems `2`, `a` and `1`, in this order. -/
def mixedArchive : List ZipEntry :=
  [entryNamed "2.json", entryNamed "2.png", entryNamed "a.json", entryNamed "a.png",
   entryNamed "1.json", entryNamed "1.png"]

/-- An archive with the one pair of stem `a`. -/
def letterArchive : List ZipEntry :=
  [entryNamed "a.json", entryNamed "a.png"]

/-- A screen of number 1 whose bundled JSON is the named screen object. -/
def bundledScreen : Screen :=
  { number := .finite 1, json := namedScreen.stringify, screenshot := "data:image/png;base64,",
    screenName := "screen_1" }

/-- The labeling interface with an empty store. -/
def emptyStoreState : AppState :=
  { initialState with isZipUploaded := true, localStorage := [] }

/-! ## Lemmas on numbers -/

theorem findShift_le (fuel n : Nat) (hn : 0 < n) : 2 ^ findShift fuel n ≤ n := by
  induction fuel generalizing n with
  | zero => simpa [findShift] using hn
  | succ k ih =>
    unfold findShift
    split_ifs with h
    · simpa using hn
    · have h2 : 0 < n / 2 := by
        have : 2 ^ 53 ≤ n := not_lt.mp h
        have : 2 ≤ n := le_trans (by norm_num) this
        omega
      have := ih (n / 2) h2
      rw [pow_succ]
      omega

theorem roundMagnitude_of_le {n : Nat} (h : n ≤ 2 ^ 53) : roundMagnitude n = n := by
  unfold roundMagnitude
  rw [if_pos h]

theorem roundMagnitude_pos {n : Nat} (hn : 0 < n) : 0 < roundMagnitude n := by
  unfold roundMagnitude
  split_ifs with h
  · exact hn
  · have hle := findShift_le n n hn
    have hq : 0 < n / 2 ^ findShift n n := Nat.div_pos hle (by positivity)
    have hp : 0 < 2 ^ findShift n n := by positivity
    simp only
    split_ifs
    · exact Nat.mul_pos (by omega) hp
    · exact Nat.mul_pos hq hp

theorem overflowBound_gt : 2 ^ 53 < overflowBound := by
  unfold overflowBound
  norm_num

theorem ofInt_of_natAbs_le {z : Int} (h : z.natAbs ≤ 2 ^ 53) : JSNumber.ofInt z = .finite z := by
  have hlt : ¬ overflowBound ≤ z.natAbs := by
    have := overflowBound_gt
    omega
  simp only [JSNumber.ofInt, roundMagnitude_of_le h, hlt, if_false, JSNumber.finite.injEq]
  split_ifs <;> omega

theorem isPositive_ofInt (z : Int) : (JSNumber.ofInt z).isPositive = decide (0 < z) := by
  unfold JSNumber.ofInt
  by_cases hz : z = 0
  · subst hz
    have : ¬ overflowBound ≤ 0 := by have := overflowBound_gt; omega
    simp [roundMagnitude, this, JSNumber.isPositive]
  · have hpos : 0 < roundMagnitude z.natAbs := roundMagnitude_pos (Int.natAbs_pos.mpr hz)
    by_cases hneg : z < 0
    · have hn : ¬ 0 < z := by omega
      by_cases hov : overflowBound ≤ roundMagnitude z.natAbs
      · simp [JSNumber.isPositive, hov, hneg, hn]
      · simp only [hov, if_false, hneg, if_true, JSNumber.isPositive, hn, decide_False,
          decide_eq_false_iff_not]
        omega
    · have hp : 0 < z := by omega
      by_cases hov : overflowBound ≤ roundMagnitude z.natAbs
      · simp [JSNumber.isPositive, hov, hneg, hp]
      · simp only [hov, if_false, hneg, JSNumber.isPositive, hp, decide_True,
          decide_eq_true_eq]
        omega

theorem ne_of_isPositive_sub {p q : JSNumber} (h : (p.sub q).isPositive = true) : p ≠ q := by
  rintro rfl
  cases p with
  | finite a => simp [JSNumber.sub, isPositive_ofInt] at h
  | infinity s => simp [JSNumber.sub, JSNumber.isPositive] at h
  | nan => simp [JSNumber.sub, JSNumber.isPositive] at h

theorem isPositive_sub_finite (a b : Int) :
    ((JSNumber.finite a).sub (.finite b)).isPositive = decide (b < a) := by
  simp only [JSNumber.sub, isPositive_ofInt]
  congr 1
  exact propext ⟨fun h => by omega, fun h => by omega⟩

theorem sub_finite_of_le {a b : Int} (h : (a - b).natAbs ≤ 2 ^ 53) :
    (JSNumber.finite a).sub (.finite b) = .finite (a - b) := by
  simp only [JSNumber.sub, ofInt_of_natAbs_le h]

theorem mul_finite_of_le {a b : Int} (h : (a * b).natAbs ≤ 2 ^ 53) :
    (JSNumber.finite a).mul (.finite b) = .finite (a * b) := by
  simp only [JSNumber.mul, ofInt_of_natAbs_le h]

/-! ## Lemmas on the bounds parser -/

theorem isDigit_iff (c : Char) : isDigit c = true ↔ 48 ≤ c.toNat ∧ c.toNat ≤ 57 := by
  simp [isDigit]

theorem digit_not_whiteSpace {c : Char} (h : isDigit c = true) : isWhiteSpace c = false := by
  rw [isDigit_iff] at h
  simp only [isWhiteSpace, Bool.or_eq_false_iff, beq_eq_false_iff_ne, ne_eq, Bool.and_eq_false_imp,
    decide_eq_true_eq, decide_eq_false_iff_not]
  omega

theorem digitValue_of_digit {c : Char} (h : isDigit c = true) :
    digitValue c = some (c.toNat - 48) := by
  rw [isDigit_iff] at h
  simp [digitValue, h]

theorem takeRadixDigits_digits (ds : List Char) (h : ∀ c ∈ ds, isDigit c = true) :
    takeRadixDigits 10 ds = ds.map (fun c => c.toNat - 48) := by
  induction ds with
  | nil => rfl
  | cons c t ih =>
    have hc := h c (List.mem_cons_self _ _)
    have hlt : c.toNat - 48 < 10 := by
      rw [isDigit_iff] at hc; omega
    simp [takeRadixDigits, digitValue_of_digit hc, hlt,
      ih (fun x hx => h x (List.mem_cons_of_mem _ hx))]

theorem foldl_ofDigits (l : List Nat) (acc : Nat) :
    l.foldl (fun a d => 10 * a + d) acc = Nat.ofDigits 10 (l.reverse ++ [acc]) := by
  induction l generalizing acc with
  | nil => simp [Nat.ofDigits]
  | cons d t ih =>
    rw [List.foldl_cons, ih]
    simp [Nat.ofDigits_append, Nat.ofDigits_cons, Nat.ofDigits_singleton]
    ring

theorem foldl_digitsValue (ds : List Char) :
    (ds.map (fun c => c.toNat - 48)).foldl (fun acc d => 10 * acc + d) 0 = digitsValue ds := by
  rw [foldl_ofDigits]
  simp [digitsValue, Nat.ofDigits_append, Nat.ofDigits_singleton]

theorem hasHexPrefix_digits (ds : List Char) (h : ∀ c ∈ ds, isDigit c = true) :
    hasHexPrefix ds = false := by
  match ds with
  | [] => rfl
  | [_] => rfl
  | c :: x :: u =>
    have hx := h x (by simp)
    have hx1 : x ≠ 'x' := by rintro rfl; revert hx; decide
    have hx2 : x ≠ 'X' := by rintro rfl; revert hx; decide
    simp [hasHexPrefix, hx1, hx2]

theorem parseMagnitude_digits (ds : List Char) (hne : ds ≠ []) (h : ∀ c ∈ ds, isDigit c = true) :
    parseMagnitude ds = some (digitsValue ds) := by
  simp only [parseMagnitude, hasHexPrefix_digits ds h, Bool.false_eq_true, if_false,
    takeRadixDigits_digits ds h, foldl_digitsValue]
  simp [hne]

theorem parseInt_text (a : IntLit) : parseInt a.text = JSNumber.ofInt a.value := by
  obtain ⟨c, t, hct⟩ := List.exists_cons_of_ne_nil a.nonempty
  have hc : isDigit c = true := a.allDigits c (by rw [hct]; exact List.mem_cons_self _ _)
  have hmag := parseMagnitude_digits a.digits a.nonempty a.allDigits
  cases hneg : a.neg with
  | false =>
    have hws := digit_not_whiteSpace hc
    have hc1 : c ≠ '-' := by rintro rfl; revert hc; decide
    have hc2 : c ≠ '+' := by rintro rfl; revert hc; decide
    have hstrip : stripSign (a.digits.dropWhile isWhiteSpace) = (false, a.digits) := by
      rw [hct]; simp [List.dropWhile_cons, hws, stripSign, hc1, hc2]
    simp [IntLit.text, IntLit.value, hneg, parseInt, hstrip, hmag]
  | true =>
    have hws : isWhiteSpace '-' = false := by decide
    have hstrip : stripSign (('-' :: a.digits).dropWhile isWhiteSpace) = (true, a.digits) := by
      simp [List.dropWhile_cons, hws, stripSign]
    simp [IntLit.text, IntLit.value, hneg, parseInt, hstrip, hmag]

theorem takeWhile_digits_append (ds : List Char) (h : ∀ c ∈ ds, isDigit c = true) (x : Char)
    (hx : isDigit x = false) (rest : List Char) :
    (ds ++ x :: rest).takeWhile isDigit = ds ∧ (ds ++ x :: rest).dropWhile isDigit = x :: rest := by
  induction ds with
  | nil => simp [List.takeWhile_cons, List.dropWhile_cons, hx]
  | cons c t ih =>
    have hc := h c (List.mem_cons_self _ _)
    have := ih (fun y hy => h y (List.mem_cons_of_mem _ hy))
    simp [List.takeWhile_cons, List.dropWhile_cons, hc, this]

theorem matchInt_text (a : IntLit) (x : Char) (hx : isDigit x = false) (rest : List Char) :
    matchInt (a.text ++ x :: rest) = some (a.text, x :: rest) := by
  obtain ⟨c, t, hct⟩ := List.exists_cons_of_ne_nil a.nonempty
  have hc : isDigit c = true := a.allDigits c (by rw [hct]; exact List.mem_cons_self _ _)
  have hsplit := takeWhile_digits_append a.digits a.allDigits x hx rest
  cases hneg : a.neg with
  | false =>
    have hc1 : c ≠ '-' := by rintro rfl; revert hc; decide
    have hsplit2 := hsplit
    rw [hct] at hsplit2
    simp only [IntLit.text, hneg, Bool.false_eq_true, if_false, hct, matchInt, List.cons_append,
      hc1, List.length_nil, List.drop_zero, List.nil_append]
    rw [← List.cons_append, hsplit2.1, hsplit2.2]
    simp
  | true =>
    simp only [IntLit.text, hneg, if_true, matchInt, List.cons_append, List.length_singleton,
      List.drop_succ_cons, List.drop_zero, hsplit.1, hsplit.2]
    simp [a.nonempty]

theorem matchInt_sound {s t r : List Char} (h : matchInt s = some (t, r)) :
    ∃ a : IntLit, t = a.text ∧ s = t ++ r := by
  unfold matchInt at h
  match s, h with
  | [], h => simp at h
  | c :: u, h =>
    by_cases hc : c = '-'
    · subst hc
      simp only [if_true, List.length_singleton, List.drop_succ_cons, List.drop_zero] at h
      split at h
      · simp at h
      · rename_i hne
        simp only [Option.some.injEq, Prod.mk.injEq] at h
        refine ⟨⟨true, u.takeWhile isDigit, ?_, fun c hc => List.mem_takeWhile_imp hc⟩, ?_, ?_⟩
        · simpa using hne
        · simp [IntLit.text, ← h.1]
        · rw [← h.1, ← h.2]; simp
    · simp only [hc, if_false, List.length_nil, List.drop_zero] at h
      split at h
      · simp at h
      · rename_i hne
        simp only [Option.some.injEq, Prod.mk.injEq, List.nil_append] at h
        refine ⟨⟨false, (c :: u).takeWhile isDigit, ?_, fun c hc => List.mem_takeWhile_imp hc⟩, ?_, ?_⟩
        · simpa using hne
        · simp [IntLit.text, ← h.1]
        · rw [← h.1, ← h.2]; simp

theorem expectChar_eq_some {c : Char} {s r : List Char} (h : expectChar c s = some r) :
    s = c :: r := by
  cases s with
  | nil => simp [expectChar] at h
  | cons x t =>
    by_cases hx : x = c
    · simp [expectChar, hx] at h; rw [hx, h]
    · simp [expectChar, hx] at h

theorem matchHere_boundsText (a b c d : IntLit) (post : List Char) :
    matchHere (boundsTextThen a b c d post) = some ⟨a.text, b.text, c.text, d.text⟩ := by
  have h1 : isDigit ',' = false := by decide
  have h2 : isDigit ']' = false := by decide
  simp [matchHere, boundsTextThen, expectChar, matchInt_text, h1, h2, bind, Option.bind]

theorem matchHere_sound {s : List Char} {m : Captures} (h : matchHere s = some m) :
    ∃ a b c d post, s = boundsTextThen a b c d post ∧
      m = ⟨a.text, b.text, c.text, d.text⟩ := by
  simp only [matchHere, bind, Option.bind_eq_some, pure] at h
  obtain ⟨s1, e1, ⟨ta, s2⟩, ea, s3, e2, ⟨tb, s4⟩, eb, s5, e3, s6, e4, ⟨tc, s7⟩, ec, s8, e5,
    ⟨td, s9⟩, ed, s10, e6, hm⟩ := h
  obtain ⟨a, ha, ha2⟩ := matchInt_sound ea
  obtain ⟨b, hb, hb2⟩ := matchInt_sound eb
  obtain ⟨c, hc, hc2⟩ := matchInt_sound ec
  obtain ⟨d, hd, hd2⟩ := matchInt_sound ed
  have := expectChar_eq_some e1
  have := expectChar_eq_some e2
  have := expectChar_eq_some e3
  have := expectChar_eq_some e4
  have := expectChar_eq_some e5
  have := expectChar_eq_some e6
  refine ⟨a, b, c, d, s10, ?_, ?_⟩
  · simp only [boundsTextThen]
    subst_vars
    simp_all
  · simp only [Option.some.injEq] at hm
    rw [← hm, ha, hb, hc, hd]

theorem regexMatch_cons (x : Char) (t : List Char) :
    regexMatch (x :: t) =
      match matchHere (x :: t) with
      | some m => some m
      | none => regexMatch t := rfl

theorem regexMatch_sound {s : List Char} {m : Captures} (h : regexMatch s = some m) :
    ∃ pre a b c d post, s = pre ++ boundsTextThen a b c d post ∧
      m = ⟨a.text, b.text, c.text, d.text⟩ := by
  induction s with
  | nil => simp [regexMatch] at h
  | cons x t ih =>
    unfold regexMatch at h
    cases hm : matchHere (x :: t) with
    | some m1 =>
      rw [hm] at h
      simp only [Option.some.injEq] at h
      subst h
      obtain ⟨a, b, c, d, post, hs, hcap⟩ := matchHere_sound hm
      exact ⟨[], a, b, c, d, post, by simpa using hs, hcap⟩
    | none =>
      rw [hm] at h
      obtain ⟨pre, a, b, c, d, post, hs, hcap⟩ := ih h
      exact ⟨x :: pre, a, b, c, d, post, by simp [hs], hcap⟩

theorem regexMatch_first (pre : List Char) (a b c d : IntLit) (post : List Char)
    (hfirst : ∀ n, n < pre.length →
      ¬ StartsWithBounds ((pre ++ boundsTextThen a b c d post).drop n)) :
    regexMatch (pre ++ boundsTextThen a b c d post) = some ⟨a.text, b.text, c.text, d.text⟩ := by
  induction pre with
  | nil =>
    have h := matchHere_boundsText a b c d post
    simp only [List.nil_append]
    rw [boundsTextThen] at h ⊢
    simp only [regexMatch, h]
  | cons x t ih =>
    have hnone : matchHere (x :: t ++ boundsTextThen a b c d post) = none := by
      cases hm : matchHere (x :: t ++ boundsTextThen a b c d post) with
      | none => rfl
      | some m =>
        obtain ⟨a1, b1, c1, d1, post1, hs, _⟩ := matchHere_sound hm
        exact absurd ⟨a1, b1, c1, d1, post1, hs⟩ (hfirst 0 (by simp))
    have htail : ∀ n, n < t.length →
        ¬ StartsWithBounds ((t ++ boundsTextThen a b c d post).drop n) := by
      intro n hn
      have := hfirst (n + 1) (by simpa using hn)
      simpa using this
    simp only [List.cons_append] at hnone ⊢
    simp only [regexMatch, hnone, ih htail]

theorem regexMatch_eq_none_iff (s : List Char) : regexMatch s = none ↔ ¬ ContainsBounds s := by
  constructor
  · rintro h ⟨pre, a, b, c, d, post, rfl⟩
    induction pre with
    | nil =>
      have hm := matchHere_boundsText a b c d post
      rw [boundsTextThen] at hm
      simp [boundsTextThen, regexMatch, hm] at h
    | cons x t ih =>
      rw [List.cons_append, regexMatch_cons] at h
      cases hm : matchHere (x :: (t ++ boundsTextThen a b c d post)) with
      | none => rw [hm] at h; exact ih h
      | some m => rw [hm] at h; simp at h
  · intro h
    cases hm : regexMatch s with
    | none => rfl
    | some m =>
      obtain ⟨pre, a, b, c, d, post, hs, _⟩ := regexMatch_sound hm
      exact absurd ⟨pre, a, b, c, d, post, hs⟩ h

theorem parseBoundsString_eq_none (s : String) :
    parseBoundsString s = none ↔ ¬ ContainsBounds s.data := by
  rw [← regexMatch_eq_none_iff]
  unfold parseBoundsString
  cases hm : regexMatch s.data with
  | none => simp
  | some m =>
    simp

theorem string_mk_ne_empty {l : List Char} (h : l ≠ []) : (String.mk l != "") = true := by
  simp only [bne_iff_ne, ne_eq]
  intro hl
  apply h
  have := congrArg String.data hl
  simpa using this

theorem parseBounds_of_first (pre post : List Char) (a b c d : IntLit)
    (hfirst : ∀ n, n < pre.length →
      ¬ StartsWithBounds ((pre ++ boundsTextThen a b c d post).drop n)) :
    parseBounds (some (.str (String.mk (pre ++ boundsTextThen a b c d post)))) =
      .ok (some ⟨JSNumber.ofInt a.value, JSNumber.ofInt b.value, JSNumber.ofInt c.value,
        JSNumber.ofInt d.value⟩) := by
  have hne : pre ++ boundsTextThen a b c d post ≠ [] := by simp [boundsTextThen]
  simp only [parseBounds, truthy, string_mk_ne_empty hne, Bool.not_true, Bool.false_eq_true,
    if_false, parseBoundsString, regexMatch_first pre a b c d post hfirst, parseInt_text]

theorem digitChar_spec (d : Nat) (h : d < 10) :
    isDigit (Char.ofNat (d + 48)) = true ∧ (Char.ofNat (d + 48)).toNat - 48 = d := by
  interval_cases d <;> decide

theorem decimalNat_spec (n : Nat) :
    decimalNat n ≠ [] ∧ (∀ c ∈ decimalNat n, isDigit c = true) ∧ digitsValue (decimalNat n) = n := by
  by_cases hn : n = 0
  · subst hn
    refine ⟨by simp [decimalNat], ?_, ?_⟩
    · intro c hc
      simp only [decimalNat, if_true, List.mem_singleton] at hc
      subst hc; decide
    · simp only [decimalNat, if_true, digitsValue, List.map_cons, List.map_nil, List.reverse_cons,
        List.reverse_nil, List.nil_append]
      decide
  · have hlt : ∀ d ∈ Nat.digits 10 n, d < 10 := fun d hd => Nat.digits_lt_base (by norm_num) hd
    refine ⟨?_, ?_, ?_⟩
    · simp [decimalNat, hn, Nat.digits_eq_nil_iff_eq_zero]
    · intro c hc
      simp only [decimalNat, hn, if_false, List.mem_map, List.mem_reverse] at hc
      obtain ⟨d, hd, rfl⟩ := hc
      exact (digitChar_spec d (hlt d hd)).1
    · have hmap : (Nat.digits 10 n).map (fun d => (Char.ofNat (d + 48)).toNat - 48) =
          Nat.digits 10 n := by
        conv_rhs => rw [← List.map_id (Nat.digits 10 n)]
        apply List.map_congr_left
        intro d hd
        exact (digitChar_spec d (hlt d hd)).2
      simp only [decimalNat, hn, if_false, digitsValue, List.map_map, List.map_reverse,
        List.reverse_reverse, Function.comp_def, hmap]
      exact Nat.ofDigits_digits 10 n

theorem decimal_spec (z : Int) : ∃ a : IntLit, a.text = decimal z ∧ a.value = z := by
  obtain ⟨h1, h2, h3⟩ := decimalNat_spec z.natAbs
  by_cases hz : z < 0
  · refine ⟨⟨true, decimalNat z.natAbs, h1, h2⟩, ?_, ?_⟩
    · simp [IntLit.text, decimal, hz]
    · simp only [IntLit.value, if_true, h3]
      omega
  · refine ⟨⟨false, decimalNat z.natAbs, h1, h2⟩, ?_, ?_⟩
    · simp [IntLit.text, decimal, hz]
    · simp only [IntLit.value, Bool.false_eq_true, if_false, h3]
      omega

theorem parseBounds_boundsOfInts (a b c d : Int) :
    parseBounds (some (.str (boundsOfInts a b c d))) =
      .ok (some ⟨JSNumber.ofInt a, JSNumber.ofInt b, JSNumber.ofInt c, JSNumber.ofInt d⟩) := by
  obtain ⟨la, ha, ha2⟩ := decimal_spec a
  obtain ⟨lb, hb, hb2⟩ := decimal_spec b
  obtain ⟨lc, hc, hc2⟩ := decimal_spec c
  obtain ⟨ld, hd, hd2⟩ := decimal_spec d
  have h := parseBounds_of_first [] [] la lb lc ld (by simp)
  simp only [List.nil_append, boundsTextThen, ha, hb, hc, hd, ha2, hb2, hc2, hd2] at h
  exact h

/-! ## Lemmas on the scene builder -/

theorem getProp_obj (fields : List (String × JSValue)) (key : String) :
    (JSValue.obj fields).getProp key = .ok (fields.lookup key) := rfl

theorem prop_obj (fields : List (String × JSValue)) (key : String) :
    (JSValue.obj fields).prop key = fields.lookup key := rfl

theorem isElement_obj {e : JSValue} (h : isElement e = true) : ∃ fields, e = .obj fields := by
  cases e <;> simp [isElement] at h
  exact ⟨_, rfl⟩

theorem parseBounds_str (t : String) :
    parseBounds (some (.str t)) = .ok (if t = "" then none else parseBoundsString t) := by
  by_cases ht : t = ""
  · simp [parseBounds, truthy, ht]
  · simp [parseBounds, truthy, ht]

theorem parseBounds_falsy {b : Option JSValue} (h : truthy b = false) :
    parseBounds b = .ok none := by
  simp [parseBounds, h]

theorem mapElement_of_isElement {e : JSValue} (h : isElement e = true) :
    mapElement e = .ok (itemOf e) := by
  obtain ⟨fields, rfl⟩ := isElement_obj h
  simp only [isElement, Bool.and_eq_true] at h
  have hb := h.1
  have hpb : ∃ r, parseBounds (fields.lookup "bounds") = .ok r := by
    split at hb
    · rename_i t heq
      rw [heq, parseBounds_str]; exact ⟨_, rfl⟩
    · exact ⟨none, parseBounds_falsy (by simpa using hb)⟩
  obtain ⟨r, hr⟩ := hpb
  cases r with
  | none => simp [mapElement, itemOf, elementBounds, getProp_obj, hr, bind, Except.bind, pure, Except.pure]
  | some b =>
    simp [mapElement, itemOf, elementBounds, getProp_obj, hr, bind, Except.bind, pure, Except.pure,
      Bounds.area]

theorem mapElements_of_isElement (els : List JSValue) (h : ∀ e ∈ els, isElement e = true) :
    mapElements els = .ok (els.map itemOf) := by
  induction els with
  | nil => rfl
  | cons e t ih =>
    have he := mapElement_of_isElement (h e (List.mem_cons_self _ _))
    have ht := ih (fun x hx => h x (List.mem_cons_of_mem _ hx))
    simp [mapElements, he, ht, bind, Except.bind, pure, Except.pure]

theorem elementsWithArea_of_isElement (els : List JSValue) (h : ∀ e ∈ els, isElement e = true) :
    elementsWithArea els = .ok (arraySort compareArea (els.filterMap itemOf)) := by
  simp [elementsWithArea, mapElements_of_isElement els h, bind, Except.bind, pure, Except.pure,
    List.filterMap_map]

theorem itemOf_element {e : JSValue} {item : Item} (h : itemOf e = some item) :
    item.element = e ∧ elementBounds e = some item.bounds ∧ item.area = item.bounds.area := by
  simp only [itemOf, Option.map_eq_some'] at h
  obtain ⟨b, hb, rfl⟩ := h
  exact ⟨rfl, hb, rfl⟩

theorem arraySort_perm {α : Type} (cmp : α → α → JSNumber) (l : List α) :
    (arraySort cmp l).Perm l :=
  List.perm_insertionSort _ l

/-- The descending order of the sort on areas that are finite. -/
theorem orderedInsert_area_sorted (x : Item) (l : List Item)
    (hx : ∃ n, x.area = .finite n) (hfin : ∀ i ∈ l, ∃ n, i.area = .finite n)
    (hl : l.Pairwise (fun a b => ∀ p q, a.area = .finite p → b.area = .finite q → q ≤ p)) :
    (List.orderedInsert (fun a b => (compareArea a b).isPositive = false) x l).Pairwise
      (fun a b => ∀ p q, a.area = .finite p → b.area = .finite q → q ≤ p) := by
  induction l with
  | nil => simp
  | cons y t ih =>
    rw [List.pairwise_cons] at hl
    obtain ⟨nx, hnx⟩ := hx
    obtain ⟨ny, hny⟩ := hfin y (List.mem_cons_self _ _)
    have hft : ∀ i ∈ t, ∃ n, i.area = .finite n := fun i hi => hfin i (List.mem_cons_of_mem _ hi)
    by_cases hxy : (compareArea x y).isPositive = false
    · have hle : ny ≤ nx := by
        simp only [compareArea, hnx, hny, isPositive_sub_finite, decide_eq_false_iff_not] at hxy
        omega
      simp only [List.orderedInsert]
      rw [if_pos hxy]
      simp only [List.pairwise_cons]
      refine ⟨?_, hl⟩
      intro z hz p q hp hq
      rw [hnx] at hp
      cases hp
      rcases List.mem_cons.mp hz with rfl | hz
      · rw [hny] at hq
        cases hq
        exact hle
      · exact le_trans (hl.1 z hz ny q hny hq) hle
    · have hlt : nx < ny := by
        simp only [compareArea, hnx, hny, isPositive_sub_finite, decide_eq_false_iff_not,
          not_not] at hxy
        exact hxy
      simp only [List.orderedInsert]
      rw [if_neg hxy]
      simp only [List.pairwise_cons]
      refine ⟨?_, ih hft hl.2⟩
      intro z hz p q hp hq
      have hz2 := (List.perm_orderedInsert _ x t).subset hz
      rcases List.mem_cons.mp hz2 with rfl | hz3
      · rw [hny] at hp
        rw [hnx] at hq
        cases hp
        cases hq
        exact le_of_lt hlt
      · exact hl.1 z hz3 p q hp hq

theorem arraySort_area_sorted (l : List Item) (hfin : ∀ i ∈ l, ∃ n, i.area = .finite n) :
    (arraySort compareArea l).Pairwise
      (fun a b => ∀ p q, a.area = .finite p → b.area = .finite q → q ≤ p) := by
  induction l with
  | nil => simp [arraySort]
  | cons x t ih =>
    have ht := ih (fun i hi => hfin i (List.mem_cons_of_mem _ hi))
    simp only [arraySort, List.insertionSort] at ht ⊢
    refine orderedInsert_area_sorted x _ (hfin x (List.mem_cons_self _ _)) ?_ ht
    intro i hi
    exact hfin i (List.mem_cons_of_mem _ ((List.perm_insertionSort _ t).subset hi))

theorem orderedInsert_filter_area (x : Item) (l : List Item) (a : JSNumber) :
    (List.orderedInsert (fun a b => (compareArea a b).isPositive = false) x l).filter
        (fun i => i.area = a) =
      (x :: l).filter (fun i => i.area = a) := by
  induction l with
  | nil => simp
  | cons y t ih =>
    by_cases hxy : (compareArea x y).isPositive = false
    · simp only [List.orderedInsert]
      rw [if_pos hxy]
    · have hne : y.area ≠ x.area := by
        simp only [compareArea, Bool.not_eq_false] at hxy
        exact ne_of_isPositive_sub hxy
      simp only [List.orderedInsert]
      rw [if_neg hxy, List.filter_cons, ih]
      by_cases hya : y.area = a
      · have hxa : ¬ x.area = a := by rw [← hya]; exact fun h => hne h.symm
        simp [List.filter_cons, hya, hxa]
      · simp [List.filter_cons, hya]

theorem arraySort_filter_area (l : List Item) (a : JSNumber) :
    (arraySort compareArea l).filter (fun i => i.area = a) = l.filter (fun i => i.area = a) := by
  induction l with
  | nil => simp [arraySort]
  | cons x t ih =>
    simp only [arraySort, List.insertionSort] at ih ⊢
    rw [orderedInsert_filter_area, List.filter_cons, ih, List.filter_cons]

theorem getProp_of_truthy {h : JSValue} (ht : truthy (some h) = true) (key : String) :
    h.getProp key = .ok (h.prop key) := by
  cases h <;> simp_all [truthy, JSValue.getProp, JSValue.prop]

theorem isHighlighted_of_isElement {e : JSValue} (he : isElement e = true) (h : JSValue) :
    isHighlighted e h = .ok (highlightedBy e h) := by
  obtain ⟨fields, rfl⟩ := isElement_obj he
  by_cases ht : truthy (some h) = true
  · simp [isHighlighted, highlightedBy, ht, getProp_of_truthy ht, getProp_obj, prop_obj, bind,
      Except.bind, pure, Except.pure]
  · simp [isHighlighted, highlightedBy, ht, pure, Except.pure]

theorem isLabeled_of_isElement {e : JSValue} (he : isElement e = true) :
    isLabeled e = .ok (hasLabel e) := by
  obtain ⟨fields, rfl⟩ := isElement_obj he
  simp only [isElement, Bool.and_eq_true] at he
  have hi := he.2
  split at hi
  · rename_i t heq
    by_cases ht : t = ""
    · have htrim : jsTrim "" = "" := by decide
      simp [isLabeled, hasLabel, getProp_obj, prop_obj, heq, truthy, ht, htrim, bind,
        Except.bind, pure, Except.pure]
    · simp [isLabeled, hasLabel, getProp_obj, prop_obj, heq, truthy, ht, callTrim, bind,
        Except.bind, pure, Except.pure]
  · rename_i hns
    have hf : truthy (fields.lookup "information") = false := by simpa using hi
    have hl : hasLabel (.obj fields) = false := by
      simp only [hasLabel, prop_obj]
    simp [isLabeled, hl, getProp_obj, hf, bind, Except.bind, pure, Except.pure]

theorem chooseColor_of_isElement {e : JSValue} (he : isElement e = true) (h : JSValue) :
    chooseColor e h = .ok
      (if highlightedBy e h then 0xef4444
       else if hasLabel e then 0x8b5cf6
       else if truthy (e.prop "is_clickable") then 0x10b981
       else 0xf59e0b) := by
  have h1 := isHighlighted_of_isElement he h
  have h2 := isLabeled_of_isElement he
  obtain ⟨fields, rfl⟩ := isElement_obj he
  simp only [chooseColor, h1, h2, getProp_obj, prop_obj, bind, Except.bind, pure, Except.pure]
  split_ifs <;> rfl

theorem buildMesh_of_isElement (h : JSValue) (item : Item) (index : Nat)
    (he : isElement item.element = true) :
    ∃ m, buildMesh h item index = .ok m ∧ m.z = (index : Int) * 10 ∧
      m.userData = item.element ∧ m.width = item.bounds.right.sub item.bounds.left ∧
      m.height = item.bounds.bottom.sub item.bounds.top ∧
      chooseColor item.element h = .ok m.color := by
  have hc := chooseColor_of_isElement he h
  simp only [buildMesh, hc, bind, Except.bind, pure, Except.pure]
  exact ⟨_, rfl, rfl, rfl, rfl, rfl, rfl⟩

theorem buildMeshesFrom_of_isElement (h : JSValue) (items : List Item) (k : Nat)
    (he : ∀ item ∈ items, isElement item.element = true) :
    ∃ meshes, buildMeshesFrom h items k = .ok meshes ∧ meshes.length = items.length ∧
      ∀ i item, items[i]? = some item →
        ∃ m, meshes[i]? = some m ∧ buildMesh h item (k + i) = .ok m := by
  induction items generalizing k with
  | nil => exact ⟨[], rfl, rfl, by simp⟩
  | cons x t ih =>
    obtain ⟨m, hm, -⟩ := buildMesh_of_isElement h x k (he x (List.mem_cons_self _ _))
    obtain ⟨ms, hms, hlen, hget⟩ := ih (k + 1) (fun y hy => he y (List.mem_cons_of_mem _ hy))
    refine ⟨m :: ms, ?_, by simp [hlen], ?_⟩
    · simp [buildMeshesFrom, hm, hms, bind, Except.bind, pure, Except.pure]
    · intro i item hi
      cases i with
      | zero =>
        simp only [List.getElem?_cons_zero, Option.some.injEq] at hi
        subst hi
        exact ⟨m, by simp, by simpa using hm⟩
      | succ j =>
        simp only [List.getElem?_cons_succ] at hi
        obtain ⟨mj, hmj, hb⟩ := hget j item hi
        refine ⟨mj, by simpa using hmj, ?_⟩
        have : k + (j + 1) = k + 1 + j := by omega
        rw [this]; exact hb

theorem mem_filterMap_itemOf {els : List JSValue} (he : ∀ e ∈ els, isElement e = true)
    {item : Item} (hi : item ∈ els.filterMap itemOf) : isElement item.element = true := by
  obtain ⟨e, hmem, heq⟩ := List.mem_filterMap.mp hi
  rw [(itemOf_element heq).1]
  exact he e hmem

/-- What `handleVisualize` does on a ready scene when the main JSON parses to
an array of elements: it returns, leaves `jsonInput` alone, and builds one
mesh for each entry of the sorted render set, in order. -/
theorem handleVisualize_spec (s : AppState) (els : List JSValue) (h : JSValue)
    (hready : s.sceneReady = true) (hparse : parseInputs s = .ok (.arr els, h))
    (hels : ∀ e ∈ els, isElement e = true) :
    ∃ s', handleVisualize s = .ok s' ∧ s'.jsonInput = s.jsonInput ∧
      s'.elementCount = (arraySort compareArea (els.filterMap itemOf)).length ∧
      s'.mainGroup.length = (arraySort compareArea (els.filterMap itemOf)).length ∧
      ∀ i item, (arraySort compareArea (els.filterMap itemOf))[i]? = some item →
        ∃ m, s'.mainGroup[i]? = some m ∧ buildMesh h item i = .ok m := by
  have hitems := elementsWithArea_of_isElement els hels
  have hall : ∀ item ∈ arraySort compareArea (els.filterMap itemOf),
      isElement item.element = true := fun item hi =>
    mem_filterMap_itemOf hels ((arraySort_perm _ _).subset hi)
  obtain ⟨meshes, hms, hlen, hget⟩ := buildMeshesFrom_of_isElement h _ 0 hall
  have hv : handleVisualize s = .ok
      { s with isLoading := false, mainGroup := meshes, outlineMesh := false,
               intersectedObject := none, tooltipShown := false,
               elementCount := (arraySort compareArea (els.filterMap itemOf)).length } := by
    simp only [handleVisualize, hready, Bool.not_true, Bool.false_eq_true, if_false, hparse,
      uiElementsOf, hitems, buildMeshes, hms, bind, Except.bind, pure, Except.pure]
  refine ⟨_, hv, rfl, rfl, hlen, ?_⟩
  intro i item hi
  obtain ⟨m, hm, hb⟩ := hget i item hi
  exact ⟨m, hm, by simpa using hb⟩

theorem buildMesh_eq_ok {h : JSValue} {item : Item} {index : Nat} {m : Mesh}
    (hm : buildMesh h item index = .ok m) :
    m.z = (index : Int) * 10 ∧ m.userData = item.element ∧
      m.width = item.bounds.right.sub item.bounds.left ∧
      m.height = item.bounds.bottom.sub item.bounds.top ∧
      chooseColor item.element h = .ok m.color := by
  unfold buildMesh at hm
  cases hc : chooseColor item.element h with
  | error err => simp [hc, bind, Except.bind] at hm
  | ok c =>
    simp only [hc, bind, Except.bind, pure, Except.pure, Except.ok.injEq] at hm
    subst hm
    exact ⟨rfl, rfl, rfl, rfl, rfl⟩

theorem mesh_at_index {h : JSValue} {items : List Item} {meshes : List Mesh}
    (hlen : meshes.length = items.length)
    (hget : ∀ i item, items[i]? = some item →
      ∃ m, meshes[i]? = some m ∧ buildMesh h item i = .ok m)
    {i : Nat} {m : Mesh} (hm : meshes[i]? = some m) :
    ∃ item, items[i]? = some item ∧ buildMesh h item i = .ok m := by
  have hi : i < meshes.length := by
    by_contra hcon
    rw [List.getElem?_eq_none (by omega)] at hm
    exact Option.noConfusion hm
  have hi2 : i < items.length := by omega
  obtain ⟨m2, hm2, hb⟩ := hget i items[i] (List.getElem?_eq_getElem hi2)
  rw [hm] at hm2
  simp only [Option.some.injEq] at hm2
  subst hm2
  exact ⟨items[i], List.getElem?_eq_getElem hi2, hb⟩

theorem parseInputs_json {s : AppState} {v h : JSValue} (hp : parseInputs s = .ok (v, h)) :
    s.jsonInput.parse = .ok v := by
  unfold parseInputs at hp
  cases hj : s.jsonInput.parse with
  | error err => simp [hj, bind, Except.bind] at hp
  | ok w =>
    simp only [hj, bind, Except.bind] at hp
    split at hp
    · simp only [pure, Except.pure, Except.ok.injEq, Prod.mk.injEq] at hp
      rw [hp.1]
    · cases hh : s.highlightJsonInput.parse with
      | error err => simp [hh] at hp
      | ok x =>
        simp only [hh, pure, Except.pure, Except.ok.injEq, Prod.mk.injEq] at hp
        rw [hp.1]

theorem elementBounds_of_noBoundsMatch {e : JSValue} (h : NoBoundsMatch e) :
    (∃ b, e.getProp "bounds" = .ok b ∧ parseBounds b = .ok none) ∧ elementBounds e = none := by
  rcases h with h | ⟨t, ht, hno⟩
  · have hp : parseBounds none = .ok none := parseBounds_falsy rfl
    exact ⟨⟨none, h, hp⟩, by simp [elementBounds, h, hp]⟩
  · have hp : parseBounds (some (.str t)) = .ok none := by
      rw [parseBounds_str, (parseBoundsString_eq_none t).mpr hno]
      simp
    exact ⟨⟨_, ht, hp⟩, by simp [elementBounds, ht, hp]⟩

theorem filterMap_itemOf_element (els : List JSValue) :
    (els.filterMap itemOf).map Item.element = els.filter (fun e => (elementBounds e).isSome) := by
  induction els with
  | nil => rfl
  | cons e t ih =>
    cases hb : elementBounds e with
    | none => simp [List.filterMap_cons, List.filter_cons, itemOf, hb, ih]
    | some b => simp [List.filterMap_cons, List.filter_cons, itemOf, hb, ih]

theorem filterMap_itemOf_filter_area (els : List JSValue) (a : JSNumber) :
    ((els.filterMap itemOf).filter (fun i => i.area = a)).map Item.element =
      els.filter (fun e => (elementBounds e).map Bounds.area = some a) := by
  induction els with
  | nil => rfl
  | cons e t ih =>
    cases hb : elementBounds e with
    | none => simp [List.filterMap_cons, List.filter_cons, itemOf, hb, ih]
    | some b =>
      by_cases hba : b.area = a
      · simp [List.filterMap_cons, List.filter_cons, itemOf, hb, ih, hba]
      · simp [List.filterMap_cons, List.filter_cons, itemOf, hb, ih, hba]

/-! ## Lemmas on the two handlers -/

theorem sameKey_of_isObject {el other : JSValue} (h1 : isObject el = true)
    (h2 : isObject other = true) : sameKey el other = .ok (sameNaturalKey el other) := by
  cases el <;> simp [isObject] at h1
  cases other <;> simp [isObject] at h2
  rename_i f g
  simp only [sameKey, sameNaturalKey, getProp_obj, prop_obj, bind, Except.bind, pure, Except.pure]
  cases strictEq (f.lookup "bounds") (g.lookup "bounds") <;>
    cases strictEq (f.lookup "text") (g.lookup "text") <;> simp

theorem filterOut_of_pure (pred : JSValue → Except JSError Bool) (p : JSValue → Bool)
    (els : List JSValue) (h : ∀ e ∈ els, pred e = .ok (p e)) :
    filterOut pred els = .ok (els.filter (fun e => !p e)) := by
  induction els with
  | nil => rfl
  | cons e t ih =>
    have he := h e (List.mem_cons_self _ _)
    have ht := ih (fun x hx => h x (List.mem_cons_of_mem _ hx))
    cases hp : p e <;>
      simp [filterOut, he, ht, hp, List.filter_cons, bind, Except.bind, pure, Except.pure]

theorem findIndex_first (pred : JSValue → Except JSError Bool) (p : JSValue → Bool)
    (els : List JSValue) (h : ∀ e ∈ els, pred e = .ok (p e)) (k : Nat) (target : JSValue)
    (hk : els[k]? = some target) (hp : p target = true)
    (hfirst : ∀ j e, j < k → els[j]? = some e → p e = false) :
    findIndex pred els = .ok (some k) := by
  induction els generalizing k with
  | nil => simp at hk
  | cons e t ih =>
    have he := h e (List.mem_cons_self _ _)
    cases k with
    | zero =>
      simp only [List.getElem?_cons_zero, Option.some.injEq] at hk
      subst hk
      simp [findIndex, he, hp, bind, Except.bind, pure, Except.pure]
    | succ j =>
      have hpe : p e = false := hfirst 0 e (by omega) (by simp)
      have ht := ih (fun x hx => h x (List.mem_cons_of_mem _ hx)) j
        (by simpa using hk)
        (fun i x hi hx => hfirst (i + 1) x (by omega) (by simpa using hx))
      simp [findIndex, he, hpe, ht, bind, Except.bind, pure, Except.pure]

theorem findIndex_none (pred : JSValue → Except JSError Bool) (p : JSValue → Bool)
    (els : List JSValue) (h : ∀ e ∈ els, pred e = .ok (p e))
    (hno : ∀ e ∈ els, p e = false) : findIndex pred els = .ok none := by
  induction els with
  | nil => rfl
  | cons e t ih =>
    have he := h e (List.mem_cons_self _ _)
    have hpe := hno e (List.mem_cons_self _ _)
    have ht := ih (fun x hx => h x (List.mem_cons_of_mem _ hx))
      (fun x hx => hno x (List.mem_cons_of_mem _ hx))
    simp [findIndex, he, hpe, ht, bind, Except.bind, pure, Except.pure]

theorem mergeInformation_of_accepts {d : JSValue} {info : String}
    (h : acceptsInformation d info = true) :
    ∃ committed, mergeInformation d (jsTrim info) = .ok committed := by
  by_cases hi : jsTrim info = ""
  · exact ⟨d, by simp [mergeInformation, hi, pure, Except.pure]⟩
  · simp only [acceptsInformation, Bool.or_eq_true, beq_iff_eq, hi, false_or] at h
    cases d <;> simp at h
    · rename_i items
      exact ⟨.arr items, by simp [mergeInformation, hi, JSValue.setProp]⟩
    · simp only [mergeInformation, bne_iff_ne, ne_eq, hi, not_false_eq_true, if_true,
        JSValue.setProp]
      split_ifs <;> exact ⟨_, rfl⟩

/-- What `handleDeleteElement` does on a collection of objects. -/
theorem handleDeleteElement_spec (s : AppState) (els : List JSValue) (del : JSValue)
    (hjson : s.jsonInput = .valid (.arr els)) (hels : ∀ e ∈ els, isObject e = true)
    (hdel : isObject del = true) :
    handleDeleteElement s del =
      { s with jsonInput := .valid (.arr (els.filter (fun e => !sameNaturalKey e del))),
               selectedElement := .null } := by
  have hf := filterOut_of_pure (fun el => sameKey el del) (fun el => sameNaturalKey el del) els
    (fun e he => sameKey_of_isObject (hels e he) hdel)
  simp [handleDeleteElement, deleteElements, hjson, JsonText.parse, asArray, hf,
    JSValue.stringify, bind, Except.bind, pure, Except.pure]

/-- What `handleSaveHighlightChanges` writes when the draft parses, the
information is a text the draft can take, and `k` is the first index whose
element has the natural key of the selected element. -/
theorem handleSave_spec (s : AppState) (els : List JSValue) (d : JSValue) (info : String)
    (k : Nat) (target committed : JSValue)
    (hjson : s.jsonInput = .valid (.arr els)) (hdraft : s.highlightJsonInput = .valid d)
    (hinfo : s.elementInfo = .str info) (hels : ∀ e ∈ els, isObject e = true)
    (hsel : isObject s.selectedElement = true)
    (hk : els[k]? = some target) (hmatch : sameNaturalKey target s.selectedElement = true)
    (hfirst : ∀ j e, j < k → els[j]? = some e → sameNaturalKey e s.selectedElement = false)
    (hmerge : mergeInformation d (jsTrim info) = .ok committed) :
    (handleSaveHighlightChanges s).jsonInput = .valid (.arr (els.set k committed)) ∧
    (handleSaveHighlightChanges s).selectedElement = committed ∧
    (handleSaveHighlightChanges s).isHighlightModified = false ∧
    (handleSaveHighlightChanges s).error = "Element updated successfully!" := by
  have hfi := findIndex_first (fun el => sameKey el s.selectedElement)
    (fun el => sameNaturalKey el s.selectedElement) els
    (fun e he => sameKey_of_isObject (hels e he) hsel) k target hk hmatch hfirst
  have hprep : prepareSave s = .ok (committed, els, some k) := by
    simp [prepareSave, hjson, hdraft, hinfo, JsonText.parse, callTrim, hmerge, asArray, hfi,
      bind, Except.bind, pure, Except.pure]
  simp only [handleSaveHighlightChanges, hprep, showError, JSValue.stringify]
  split_ifs with hz
  · cases s.screens.get? s.currentScreenIndex <;> simp [saveToLocalStorage]
  · simp

theorem lookup_cons_ite (a : String) (b : JSValue) (t : List (String × JSValue)) (k : String) :
    List.lookup k ((a, b) :: t) = if k = a then some b else List.lookup k t := by
  rw [List.lookup_cons]
  by_cases h : k = a
  · subst h; simp
  · have h2 : (k == a) = false := by simpa using h
    simp [h2, h]

theorem lookup_replace (fields : List (String × JSValue)) (key : String) (x : JSValue)
    (k : String) :
    (fields.map (fun p => if p.1 == key then (p.1, x) else p)).lookup k =
      if k = key then (if fields.any (fun p => p.1 == key) then some x else none)
      else fields.lookup k := by
  induction fields with
  | nil => simp
  | cons p t ih =>
    obtain ⟨a, b⟩ := p
    by_cases ha : a = key
    · have h1 : (a == key) = true := by simpa using ha
      simp only [List.map_cons, h1, if_true, lookup_cons_ite, List.any_cons, Bool.true_or, ih]
      by_cases hk : k = key
      · simp [hk, ha]
      · have hka : ¬ k = a := by rw [ha]; exact hk
        simp [hk, hka]
    · have h1 : (a == key) = false := by simpa using ha
      simp only [List.map_cons, h1, Bool.false_eq_true, if_false, lookup_cons_ite, List.any_cons,
        Bool.false_or, ih]
      by_cases hk : k = key
      · subst hk
        have hka : ¬ k = a := fun h => ha h.symm
        simp [hka]
      · simp [hk]

theorem lookup_append_new (fields : List (String × JSValue)) (key : String) (x : JSValue)
    (k : String) (hnew : fields.any (fun p => p.1 == key) = false) :
    (fields ++ [(key, x)]).lookup k = if k = key then some x else fields.lookup k := by
  induction fields with
  | nil => simp [lookup_cons_ite]
  | cons p t ih =>
    obtain ⟨a, b⟩ := p
    simp only [List.any_cons, Bool.or_eq_false_iff, beq_eq_false_iff_ne, ne_eq] at hnew
    have iht := ih (by simpa using hnew.2)
    simp only [List.cons_append, lookup_cons_ite, iht]
    by_cases hk : k = key
    · subst hk
      have hka : ¬ k = a := fun h => hnew.1 h.symm
      simp [hka]
    · simp [hk]

theorem setProp_obj (fields : List (String × JSValue)) (key : String) (x : JSValue) :
    ∃ fields', (JSValue.obj fields).setProp key x = .ok (.obj fields') ∧
      fields'.lookup key = some x ∧ ∀ k, k ≠ key → fields'.lookup k = fields.lookup k := by
  cases hany : fields.any (fun p => p.1 == key) with
  | true =>
    refine ⟨fields.map (fun p => if p.1 == key then (p.1, x) else p), ?_, ?_, ?_⟩
    · simp only [JSValue.setProp, hany, if_true]
    · rw [lookup_replace]; simp [hany]
    · intro k hk
      rw [lookup_replace]; simp [hk]
  | false =>
    refine ⟨fields ++ [(key, x)], ?_, ?_, ?_⟩
    · simp only [JSValue.setProp, hany, Bool.false_eq_true, if_false]
    · rw [lookup_append_new _ _ _ _ hany]; simp
    · intro k hk
      rw [lookup_append_new _ _ _ _ hany]; simp [hk]

/-- What `handleSaveHighlightChanges` does when the draft parses and can take
the information but no element has the natural key of the selected
element. -/
theorem handleSave_not_found (s : AppState) (els : List JSValue) (d : JSValue) (info : String)
    (hjson : s.jsonInput = .valid (.arr els)) (hdraft : s.highlightJsonInput = .valid d)
    (hinfo : s.elementInfo = .str info) (hels : ∀ e ∈ els, isObject e = true)
    (hsel : isObject s.selectedElement = true)
    (hno : ∀ e ∈ els, sameNaturalKey e s.selectedElement = false)
    (hacc : acceptsInformation d info = true) :
    handleSaveHighlightChanges s = showError s "Could not find element to update." := by
  obtain ⟨committed, hmerge⟩ := mergeInformation_of_accepts hacc
  have hfi := findIndex_none (fun el => sameKey el s.selectedElement)
    (fun el => sameNaturalKey el s.selectedElement) els
    (fun e he => sameKey_of_isObject (hels e he) hsel) hno
  have hprep : prepareSave s = .ok (committed, els, none) := by
    simp [prepareSave, hjson, hdraft, hinfo, JsonText.parse, callTrim, hmerge, asArray, hfi,
      bind, Except.bind, pure, Except.pure]
  simp only [handleSaveHighlightChanges, hprep]

/-! ## Lemmas on the archive pairing -/

theorem json_suffix_data : ".json".data = ['.', 'j', 's', 'o', 'n'] := rfl

theorem png_suffix_data : ".png".data = ['.', 'p', 'n', 'g'] := rfl

theorem removeFirst_append (t : List Char) (h : ∀ c ∈ t, c ≠ '.') :
    removeFirst ".json".data (t ++ ".json".data) = t := by
  induction t with
  | nil => rfl
  | cons c u ih =>
    have hc : c ≠ '.' := h c (List.mem_cons_self _ _)
    have hc2 : ('.' == c) = false := by
      simp only [beq_eq_false_iff_ne, ne_eq]
      exact fun h => hc h.symm
    have hu := ih (fun x hx => h x (List.mem_cons_of_mem _ hx))
    simp only [List.cons_append, removeFirst, json_suffix_data, List.isPrefixOf, hc2,
      Bool.false_and, Bool.false_eq_true, if_false, List.cons.injEq, true_and]
    simpa [json_suffix_data] using hu

theorem intLit_no_dot (n : IntLit) : ∀ c ∈ n.text, c ≠ '.' := by
  intro c hc hdot
  subst hdot
  have hd : isDigit '.' = false := by decide
  cases hneg : n.neg with
  | false =>
    simp only [IntLit.text, hneg, Bool.false_eq_true, if_false] at hc
    rw [n.allDigits _ hc] at hd
    exact Bool.noConfusion hd
  | true =>
    simp only [IntLit.text, hneg, if_true, List.mem_cons] at hc
    rcases hc with h | h
    · revert h; decide
    · rw [n.allDigits _ h] at hd
      exact Bool.noConfusion hd

theorem stemOf_numeral (jf : ZipEntry) (n : IntLit)
    (h : jf.filename.data = n.text ++ ".json".data) : stemOf jf = String.mk n.text := by
  simp only [stemOf, h, removeFirst_append n.text (intLit_no_dot n)]

theorem endsWith_png_of_data {name : String} {t : List Char}
    (h : name.data = t ++ ".png".data) :
    endsWith name ".png" = true ∧ endsWith name ".json" = false := by
  constructor
  · simp only [endsWith, h, List.isSuffixOf_iff_suffix]
    exact List.suffix_append _ _
  · cases hs : endsWith name ".json" with
    | false => rfl
    | true =>
      simp only [endsWith, h, List.isSuffixOf_iff_suffix] at hs
      obtain ⟨u, hu⟩ := hs
      have hrev := congrArg List.reverse hu
      simp [json_suffix_data, png_suffix_data] at hrev

theorem string_eq_iff_data (a b : String) : a = b ↔ a.data = b.data :=
  ⟨fun h => by rw [h], fun h => String.ext h⟩

theorem mem_pngFilesOf {files : List ZipEntry} {png : ZipEntry} {t : List Char}
    (hmem : png ∈ files) (h : png.filename.data = t ++ ".png".data) :
    png ∈ pngFilesOf files := by
  obtain ⟨h1, h2⟩ := endsWith_png_of_data h
  simp [pngFilesOf, hmem, h1, h2]

theorem screenOf_numeral (files : List ZipEntry) (jf : ZipEntry) (n : IntLit)
    (h : jf.filename.data = n.text ++ ".json".data) :
    ((∃ png ∈ files, png.filename.data = n.text ++ ".png".data) ↔
      ∃ σ, screenOf (pngFilesOf files) jf = some σ) ∧
    (∀ σ, screenOf (pngFilesOf files) jf = some σ →
      σ.number = JSNumber.ofInt n.value ∧ σ.screenName = "screen_" ++ String.mk n.text ∧
      σ.json = jf.fileData.text) := by
  have hstem := stemOf_numeral jf n h
  have hpred : ∀ png : ZipEntry, (png.filename == String.mk n.text ++ ".png") = true ↔
      png.filename.data = n.text ++ ".png".data := by
    intro png
    rw [beq_iff_eq, string_eq_iff_data]
    simp
  cases hf : (pngFilesOf files).find? (fun png => png.filename == String.mk n.text ++ ".png") with
  | none =>
    have hnone : screenOf (pngFilesOf files) jf = none := by
      simp only [screenOf, hstem, hf]
    rw [List.find?_eq_none] at hf
    refine ⟨⟨?_, ?_⟩, ?_⟩
    · rintro ⟨png, hmem, hdata⟩
      exact absurd ((hpred png).mpr hdata) (hf png (mem_pngFilesOf hmem hdata))
    · rintro ⟨σ, hσ⟩
      rw [hnone] at hσ
      exact Option.noConfusion hσ
    · intro σ hσ
      rw [hnone] at hσ
      exact Option.noConfusion hσ
  | some png =>
    have hsome : screenOf (pngFilesOf files) jf = some
        { number := parseInt n.text
          json := jf.fileData.text
          screenshot := "data:image/png;base64," ++ png.fileData.base64
          screenName := "screen_" ++ String.mk n.text } := by
      simp only [screenOf, hstem, hf]
    have hmem : png ∈ files := (List.mem_filter.mp (List.mem_of_find?_eq_some hf)).1
    have hp : (png.filename == String.mk n.text ++ ".png") = true :=
      List.find?_some (p := fun png : ZipEntry => png.filename == String.mk n.text ++ ".png") hf
    have hdata := (hpred png).mp hp
    refine ⟨⟨fun _ => ⟨_, hsome⟩, fun _ => ⟨png, hmem, hdata⟩⟩, ?_⟩
    intro σ hσ
    rw [hsome] at hσ
    simp only [Option.some.injEq] at hσ
    subst hσ
    exact ⟨parseInt_text n, rfl, rfl⟩

theorem area_finite_of_le {l t r b : Int} (hl : l.natAbs ≤ 2 ^ 25) (ht : t.natAbs ≤ 2 ^ 25)
    (hr : r.natAbs ≤ 2 ^ 25) (hb : b.natAbs ≤ 2 ^ 25) :
    Bounds.area ⟨.finite l, .finite t, .finite r, .finite b⟩ = .finite ((r - l) * (b - t)) := by
  have hw : (r - l).natAbs ≤ 2 ^ 26 := by omega
  have hh : (b - t).natAbs ≤ 2 ^ 26 := by omega
  have hp : ((r - l) * (b - t)).natAbs ≤ 2 ^ 53 := by
    rw [Int.natAbs_mul]
    calc (r - l).natAbs * (b - t).natAbs ≤ 2 ^ 26 * 2 ^ 26 := Nat.mul_le_mul hw hh
      _ ≤ 2 ^ 53 := by norm_num
  simp only [Bounds.area]
  rw [sub_finite_of_le (le_trans hw (by norm_num)), sub_finite_of_le (le_trans hh (by norm_num)),
    mul_finite_of_le hp]

theorem sampleJsonData_area_finite :
    ∀ e ∈ sampleJsonData, ∀ b, elementBounds e = some b → ∃ n, b.area = .finite n := by
  intro e he b hb
  simp only [sampleJsonData, List.mem_cons, List.mem_singleton, List.not_mem_nil, or_false] at he
  rcases he with h | h | h | h | h | h <;> subst h <;> cases hb <;> exact ⟨_, rfl⟩

/-! ## Claims -/

/-- C1, counterexample: the string `[0,0][9007199254740993,1]` is exactly
`[a,b][c,d]` for the integers 0, 0, 9007199254740993, 1, and `parseBounds`
returns `right = 9007199254740992`: `parseInt` gives the nearest double, which
is not the integer written. -/
theorem parseBounds_large_integer_counterexample :
    boundsOfInts 0 0 9007199254740993 1 = "[0,0][9007199254740993,1]" ∧
    parseBounds (some (.str "[0,0][9007199254740993,1]")) =
      .ok (some ⟨.finite 0, .finite 0, .finite 9007199254740992, .finite 1⟩) ∧
    JSNumber.finite 9007199254740992 ≠ JSNumber.finite 9007199254740993 := by
  refine ⟨?_, rfl, by decide⟩
  apply String.ext
  simp only [boundsOfInts, decimal, decimalNat]
  norm_num

/-- C1, amended: for a string that has the text `[a,b][c,d]` (each of `a`..`d`
an optional minus sign and decimal digits) after a prefix `pre` and before a
suffix `post`, with no such text starting earlier, `parseBounds` returns the
Number values of the four integers of that leftmost occurrence, whatever
`pre` and `post` are; for the string that is exactly `[a,b][c,d]`, with
`a`..`d` any integers in decimal, negative ones included, it returns the
Number values of `a`, `b`, `c`, `d`; and the Number value of an integer of
magnitude at most `2 ^ 53` is that integer, so that in this range the four
integers are recovered exactly. -/
theorem parseBounds_first_match_as_numbers :
    (∀ (pre post : List Char) (a b c d : IntLit),
      (∀ n, n < pre.length → ¬ StartsWithBounds ((pre ++ boundsTextThen a b c d post).drop n)) →
      parseBounds (some (.str (String.mk (pre ++ boundsTextThen a b c d post)))) =
        .ok (some ⟨JSNumber.ofInt a.value, JSNumber.ofInt b.value, JSNumber.ofInt c.value,
          JSNumber.ofInt d.value⟩)) ∧
    (∀ a b c d : Int,
      parseBounds (some (.str (boundsOfInts a b c d))) =
        .ok (some ⟨JSNumber.ofInt a, JSNumber.ofInt b, JSNumber.ofInt c, JSNumber.ofInt d⟩)) ∧
    (∀ z : Int, z.natAbs ≤ 2 ^ 53 → JSNumber.ofInt z = .finite z) :=
  ⟨parseBounds_of_first, parseBounds_boundsOfInts, fun _ h => ofInt_of_natAbs_le h⟩

/-- Witness of C1 (amended): in `ab[10,-20][30,40]cd[1,2][3,4]` no match
starts in the prefix `ab`, and the first of the two matches is returned, with
its four integers as they are written. -/
theorem parseBounds_first_match_as_numbers_witness :
    (∀ n, n < ['a', 'b'].length → ¬ StartsWithBounds
      ((['a', 'b'] ++ boundsTextThen lit10 litNeg20 lit30 lit40 "cd[1,2][3,4]".data).drop n)) ∧
    parseBounds (some (.str "ab[10,-20][30,40]cd[1,2][3,4]")) =
      .ok (some ⟨.finite 10, .finite (-20), .finite 30, .finite 40⟩) ∧
    (-20 : Int).natAbs ≤ 2 ^ 53 ∧ JSNumber.ofInt (-20) = .finite (-20) := by
  have hfirst : ∀ n, n < ['a', 'b'].length → ¬ StartsWithBounds
      ((['a', 'b'] ++ boundsTextThen lit10 litNeg20 lit30 lit40 "cd[1,2][3,4]".data).drop n) := by
    intro n hn
    rintro ⟨a, b, c, d, post, h⟩
    simp only [List.length_cons, List.length_nil] at hn
    interval_cases n <;> simp [boundsTextThen] at h
  exact ⟨hfirst, parseBounds_first_match_as_numbers.1 ['a', 'b'] "cd[1,2][3,4]".data
    lit10 litNeg20 lit30 lit40 hfirst, by decide,
    parseBounds_first_match_as_numbers.2.2 (-20) (by decide)⟩

/-- C2: for an element of the collection whose `bounds` is absent or is a
string holding no text `[a,b][c,d]`, `parseBounds` returns `null`, the pass of
`handleVisualize` returns with no mesh built for that element, and the main
JSON is left as it was, so that the element is still in the collection. -/
theorem unparseable_bounds_excluded (s : AppState) (els : List JSValue) (h e : JSValue)
    (hready : s.sceneReady = true) (hparse : parseInputs s = .ok (.arr els, h))
    (hels : ∀ x ∈ els, isElement x = true) (he : e ∈ els) (hno : NoBoundsMatch e) :
    (∃ b, e.getProp "bounds" = .ok b ∧ parseBounds b = .ok none) ∧
    ∃ s', handleVisualize s = .ok s' ∧ (∀ m ∈ s'.mainGroup, m.userData ≠ e) ∧
      s'.jsonInput = s.jsonInput ∧ s'.jsonInput.parse = .ok (.arr els) ∧ e ∈ els := by
  obtain ⟨hnull, hnone⟩ := elementBounds_of_noBoundsMatch hno
  obtain ⟨s', hv, hjson, -, hlen, hget⟩ := handleVisualize_spec s els h hready hparse hels
  refine ⟨hnull, s', hv, ?_, hjson, ?_, he⟩
  · intro m hm hme
    obtain ⟨i, hi⟩ := List.mem_iff_getElem?.mp hm
    obtain ⟨item, hitem, hb⟩ := mesh_at_index hlen hget hi
    have hmem : item ∈ els.filterMap itemOf :=
      (arraySort_perm _ _).subset (List.getElem?_mem hitem)
    obtain ⟨x, -, hx⟩ := List.mem_filterMap.mp hmem
    obtain ⟨hxe, hxb, -⟩ := itemOf_element hx
    rw [← hxe, ← (buildMesh_eq_ok hb).2.1, hme, hnone] at hxb
    exact Option.noConfusion hxb
  · rw [hjson]; exact parseInputs_json hparse

/-- Witness of C2: the initial state with an element without `bounds` put in
front of the sample elements. -/
theorem unparseable_bounds_excluded_witness :
    (∃ b, noBoundsElement.getProp "bounds" = .ok b ∧ parseBounds b = .ok none) ∧
    ∃ s', handleVisualize noBoundsState = .ok s' ∧
      (∀ m ∈ s'.mainGroup, m.userData ≠ noBoundsElement) ∧
      s'.jsonInput = noBoundsState.jsonInput ∧
      s'.jsonInput.parse = .ok (.arr (noBoundsElement :: sampleJsonData)) ∧
      noBoundsElement ∈ noBoundsElement :: sampleJsonData :=
  unparseable_bounds_excluded noBoundsState (noBoundsElement :: sampleJsonData)
    sampleHighlightJson noBoundsElement rfl rfl (by decide) (List.mem_cons_self _ _)
    (Or.inl rfl)

/-- C3, counterexample: of the two elements of `roundingExample` the second
has the larger area `(right - left) * (bottom - top)`, 9007199515875289
against 9007199515875288, yet the render set keeps the first in front: both
areas are the same double, and the sort compares the doubles. -/
theorem elementsWithArea_rounded_area_counterexample :
    (elementsWithArea roundingExample).map (fun items => items.map Item.element) =
      .ok roundingExample ∧
    (elementsWithArea roundingExample).map
      (fun items => items.map (fun item => item.bounds.exactArea)) =
      .ok [some 9007199515875288, some 9007199515875289] ∧
    (elementsWithArea roundingExample).map (fun items => items.map Item.area) =
      .ok [.finite 9007199515875288, .finite 9007199515875288] :=
  ⟨rfl, rfl, rfl⟩

/-- C3, amended: for a collection of elements in which every parseable
bounds has a finite computed area, `elementsWithArea` is a permutation of the
elements with parseable bounds, each with the area
`(right - left) * (bottom - top)` of its bounds as computed in double
precision, in descending order of that computed area, and the elements of
any one computed area keep their order in the collection (the sort is
stable); for coordinates of magnitude at most `2 ^ 25` the computed area is
the exact product; three elements of areas 50, 200, 10 are rendered in the
order 200, 50, 10. -/
theorem elementsWithArea_sorted_by_computed_area :
    (∀ els : List JSValue, (∀ e ∈ els, isElement e = true) →
      (∀ e ∈ els, ∀ b, elementBounds e = some b → ∃ n, b.area = .finite n) →
      ∃ items, elementsWithArea els = .ok items ∧
        (items.map Item.element).Perm (els.filter (fun e => (elementBounds e).isSome)) ∧
        (∀ item ∈ items, elementBounds item.element = some item.bounds ∧
          item.area = (item.bounds.right.sub item.bounds.left).mul
            (item.bounds.bottom.sub item.bounds.top)) ∧
        items.Pairwise
          (fun x y => ∃ p q, x.area = .finite p ∧ y.area = .finite q ∧ q ≤ p) ∧
        ∀ a : JSNumber, (items.filter (fun i => i.area = a)).map Item.element =
          els.filter (fun e => (elementBounds e).map Bounds.area = some a)) ∧
    (∀ l t r b : Int, l.natAbs ≤ 2 ^ 25 → t.natAbs ≤ 2 ^ 25 → r.natAbs ≤ 2 ^ 25 →
      b.natAbs ≤ 2 ^ 25 →
      Bounds.area ⟨.finite l, .finite t, .finite r, .finite b⟩ =
        .finite ((r - l) * (b - t))) ∧
    (elementsWithArea areaExample).map (fun items => items.map Item.area) =
      .ok [.finite 200, .finite 50, .finite 10] := by
  refine ⟨?_, ?_, rfl⟩
  · intro els hels hfin
    have hitems : ∀ i ∈ els.filterMap itemOf, ∃ n, i.area = .finite n := by
      intro i hi
      obtain ⟨x, hx, hxi⟩ := List.mem_filterMap.mp hi
      obtain ⟨hxe, hxb, hxa⟩ := itemOf_element hxi
      rw [hxa]
      exact hfin x hx _ hxb
    have hsorted : ∀ i ∈ arraySort compareArea (els.filterMap itemOf),
        ∃ n, i.area = .finite n := fun i hi => hitems i ((arraySort_perm _ _).subset hi)
    refine ⟨_, elementsWithArea_of_isElement els hels, ?_, ?_, ?_, ?_⟩
    · rw [← filterMap_itemOf_element]
      exact (arraySort_perm _ _).map _
    · intro item hi
      obtain ⟨x, -, hx⟩ := List.mem_filterMap.mp ((arraySort_perm _ _).subset hi)
      obtain ⟨hxe, hxb, hxa⟩ := itemOf_element hx
      exact ⟨by rw [hxe]; exact hxb, hxa⟩
    · refine List.Pairwise.imp_of_mem ?_ (arraySort_area_sorted _ hitems)
      intro x y hx hy hxy
      obtain ⟨p, hp⟩ := hsorted x hx
      obtain ⟨q, hq⟩ := hsorted y hy
      exact ⟨p, q, hp, hq, hxy p q hp hq⟩
    · intro a
      rw [arraySort_filter_area, filterMap_itemOf_filter_area]
  · intro l t r b hl ht hr hb
    exact area_finite_of_le hl ht hr hb

/-- Witness of C3 (amended): the sample elements of the component, and the
rectangle `[10,10][50,30]`. -/
theorem elementsWithArea_sorted_by_computed_area_witness :
    (∀ e ∈ sampleJsonData, isElement e = true) ∧
    (∀ e ∈ sampleJsonData, ∀ b, elementBounds e = some b → ∃ n, b.area = .finite n) ∧
    (∃ items, elementsWithArea sampleJsonData = .ok items ∧
      (items.map Item.element).Perm
        (sampleJsonData.filter (fun e => (elementBounds e).isSome)) ∧
      (∀ item ∈ items, elementBounds item.element = some item.bounds ∧
        item.area = (item.bounds.right.sub item.bounds.left).mul
          (item.bounds.bottom.sub item.bounds.top)) ∧
      items.Pairwise
        (fun x y => ∃ p q, x.area = .finite p ∧ y.area = .finite q ∧ q ≤ p) ∧
      ∀ a : JSNumber, (items.filter (fun i => i.area = a)).map Item.element =
        sampleJsonData.filter (fun e => (elementBounds e).map Bounds.area = some a)) ∧
    Bounds.area ⟨.finite 10, .finite 10, .finite 50, .finite 30⟩ =
      .finite ((50 - 10) * (30 - 10)) :=
  ⟨by decide, sampleJsonData_area_finite,
    elementsWithArea_sorted_by_computed_area.1 sampleJsonData (by decide)
      sampleJsonData_area_finite,
    elementsWithArea_sorted_by_computed_area.2.1 10 10 50 30 (by decide) (by decide) (by decide)
      (by decide)⟩

/-- C4, counterexample: of the two elements of `roundingExample` the square
has the strictly larger area `(right - left) * (bottom - top)`,
9007199515875289 against 9007199515875288, yet it is the deeper one, at
`z = 10`, with the strip at `z = 0`. -/
theorem depth_rounded_area_counterexample :
    (handleVisualize roundingState).map
      (fun s' => s'.mainGroup.map (fun m =>
        (m.userData.prop "text", (elementBounds m.userData).bind Bounds.exactArea, m.z))) =
        .ok [(some (.str "strip"), some 9007199515875288, 0),
             (some (.str "square"), some 9007199515875289, 10)] :=
  rfl

/-- C4, amended: on a collection of elements, the mesh at position `i` of the
sorted render set is the box of the entry at position `i` and has
`z = i * 10`; so the depth grows strictly along the render order and the
first mesh is at depth 0; and when every parseable bounds has a finite
computed area, of two meshes the one of strictly smaller computed area
(`width * height` in double precision, the computed area of its element) is
strictly deeper.  In the scenario of the two elements `[0,0][100,50]` and
`[10,10][50,30]` the area 5000 is at depth 0 and the area 800 at depth 10. -/
theorem depth_offset_follows_computed_area :
    (∀ (s : AppState) (els : List JSValue) (h : JSValue), s.sceneReady = true →
      parseInputs s = .ok (.arr els, h) → (∀ e ∈ els, isElement e = true) →
      ∃ s' items, handleVisualize s = .ok s' ∧ elementsWithArea els = .ok items ∧
        s'.mainGroup.length = items.length ∧
        (∀ (i : Nat) (item : Item), items[i]? = some item → ∃ m, s'.mainGroup[i]? = some m ∧
          m.userData = item.element ∧ m.width.mul m.height = item.area ∧
          m.z = (i : Int) * 10) ∧
        (∀ (i j : Nat) (mi mj : Mesh), s'.mainGroup[i]? = some mi → s'.mainGroup[j]? = some mj →
          i < j → mi.z < mj.z) ∧
        (∀ m : Mesh, s'.mainGroup[0]? = some m → m.z = 0) ∧
        ((∀ e ∈ els, ∀ b, elementBounds e = some b → ∃ n, b.area = .finite n) →
          ∀ (i j : Nat) (mx my : Mesh) (p q : Int),
            s'.mainGroup[i]? = some mx → s'.mainGroup[j]? = some my →
            mx.width.mul mx.height = .finite p → my.width.mul my.height = .finite q →
            q < p → my.z > mx.z)) ∧
    (handleVisualize scenarioState).map
      (fun s' => s'.mainGroup.map (fun m => (m.width.mul m.height, m.z))) =
        .ok [(.finite 5000, 0), (.finite 800, 10)] := by
  refine ⟨?_, rfl⟩
  intro s els h hready hparse hels
  obtain ⟨s', hv, -, -, hlen, hget⟩ := handleVisualize_spec s els h hready hparse hels
  have hz : ∀ (i : Nat) (m : Mesh), s'.mainGroup[i]? = some m → m.z = (i : Int) * 10 := by
    intro i m hm
    obtain ⟨item, -, hb⟩ := mesh_at_index hlen hget hm
    exact (buildMesh_eq_ok hb).1
  have harea : ∀ (i : Nat) (m : Mesh), s'.mainGroup[i]? = some m →
      ∃ item, (arraySort compareArea (els.filterMap itemOf))[i]? = some item ∧
        m.width.mul m.height = item.area := by
    intro i m hm
    obtain ⟨item, hitem, hb⟩ := mesh_at_index hlen hget hm
    obtain ⟨x, -, hx⟩ := List.mem_filterMap.mp
      ((arraySort_perm _ _).subset (List.getElem?_mem hitem))
    obtain ⟨-, hw, hh, -⟩ := (buildMesh_eq_ok hb).2
    exact ⟨item, hitem, by rw [hw, hh, (itemOf_element hx).2.2]; rfl⟩
  refine ⟨s', _, hv, elementsWithArea_of_isElement els hels, hlen, ?_, ?_, ?_, ?_⟩
  · intro i item hitem
    obtain ⟨m, hm, hb⟩ := hget i item hitem
    obtain ⟨item2, hitem2, ha⟩ := harea i m hm
    rw [hitem] at hitem2
    simp only [Option.some.injEq] at hitem2
    subst hitem2
    exact ⟨m, hm, (buildMesh_eq_ok hb).2.1, ha, hz i m hm⟩
  · intro i j mi mj hi hj hij
    rw [hz i mi hi, hz j mj hj]
    omega
  · intro m hm
    simpa using hz 0 m hm
  · intro hfin i j mx my p q hx hy hp hq hgt
    have hitems : ∀ it ∈ els.filterMap itemOf, ∃ n, it.area = .finite n := by
      intro it hi
      obtain ⟨x, hx, hxi⟩ := List.mem_filterMap.mp hi
      obtain ⟨hxe, hxb, hxa⟩ := itemOf_element hxi
      rw [hxa]
      exact hfin x hx _ hxb
    have hsorted := arraySort_area_sorted (els.filterMap itemOf) hitems
    obtain ⟨ix, hix, hax⟩ := harea i mx hx
    obtain ⟨iy, hiy, hay⟩ := harea j my hy
    rw [hz i mx hx, hz j my hy]
    rw [hax] at hp
    rw [hay] at hq
    have hij : i < j := by
      by_contra hcon
      rcases Nat.lt_or_eq_of_le (Nat.le_of_not_lt hcon) with hlt | heq
      · obtain ⟨hjl, hje⟩ := List.getElem?_eq_some.mp hiy
        obtain ⟨hil, hie⟩ := List.getElem?_eq_some.mp hix
        have := List.pairwise_iff_getElem.mp hsorted j i hjl hil hlt q p
          (by rw [hje]; exact hq) (by rw [hie]; exact hp)
        omega
      · subst heq
        rw [hix] at hiy
        simp only [Option.some.injEq] at hiy
        subst hiy
        rw [hp] at hq
        cases hq
        omega
    omega

/-- Witness of C4 (amended): the initial state of the component. -/
theorem depth_offset_follows_computed_area_witness :
    (∀ e ∈ sampleJsonData, ∀ b, elementBounds e = some b → ∃ n, b.area = .finite n) ∧
    ∃ s' items, handleVisualize initialState = .ok s' ∧
      elementsWithArea sampleJsonData = .ok items ∧
      s'.mainGroup.length = items.length ∧
      (∀ (i : Nat) (item : Item), items[i]? = some item → ∃ m, s'.mainGroup[i]? = some m ∧
        m.userData = item.element ∧ m.width.mul m.height = item.area ∧
        m.z = (i : Int) * 10) ∧
      (∀ (i j : Nat) (mi mj : Mesh), s'.mainGroup[i]? = some mi → s'.mainGroup[j]? = some mj →
        i < j → mi.z < mj.z) ∧
      (∀ m : Mesh, s'.mainGroup[0]? = some m → m.z = 0) ∧
      ∀ (i j : Nat) (mx my : Mesh) (p q : Int),
        s'.mainGroup[i]? = some mx → s'.mainGroup[j]? = some my →
        mx.width.mul mx.height = .finite p → my.width.mul my.height = .finite q →
        q < p → my.z > mx.z := by
  obtain ⟨s', items, h1, h2, h3, h4, h5, h6, h7⟩ :=
    depth_offset_follows_computed_area.1 initialState sampleJsonData sampleHighlightJson rfl rfl
      (by decide)
  exact ⟨sampleJsonData_area_finite, s', items, h1, h2, h3, h4, h5, h6,
    h7 sampleJsonData_area_finite⟩

/-- C5, counterexample: an element whose `bounds` equals the highlight's
while `text` and `resource_id` differ gets the highlighted colour, so the
colour is not equivalent to a match of the natural key. -/
theorem highlight_natural_key_counterexample :
    ¬ (chooseColor sameBoundsElement sameBoundsHighlight = .ok 0xef4444 ↔
        sameNaturalKey sameBoundsElement sameBoundsHighlight = true) := by
  intro hiff
  have hkey := hiff.mp rfl
  revert hkey
  decide

/-- C5, amended: on a collection of elements every mesh built by
`handleVisualize` has the highlighted colour `0xef4444` if and only if the
highlight value is present (truthy) and its `bounds` is strictly equal to the
`bounds` of the element of the mesh; `text` and `resource_id` are not
compared. -/
theorem highlight_colour_iff_bounds (s : AppState) (els : List JSValue) (h : JSValue)
    (hready : s.sceneReady = true) (hparse : parseInputs s = .ok (.arr els, h))
    (hels : ∀ e ∈ els, isElement e = true) :
    ∃ s', handleVisualize s = .ok s' ∧
      ∀ m ∈ s'.mainGroup, m.userData ∈ els ∧
        (m.color = 0xef4444 ↔
          (truthy (some h) = true ∧
            strictEq (m.userData.prop "bounds") (h.prop "bounds") = true)) := by
  obtain ⟨s', hv, -, -, hlen, hget⟩ := handleVisualize_spec s els h hready hparse hels
  refine ⟨s', hv, ?_⟩
  intro m hm
  obtain ⟨i, hi⟩ := List.mem_iff_getElem?.mp hm
  obtain ⟨item, hitem, hb⟩ := mesh_at_index hlen hget hi
  obtain ⟨x, hxmem, hx⟩ := List.mem_filterMap.mp
    ((arraySort_perm _ _).subset (List.getElem?_mem hitem))
  obtain ⟨-, hud, -, -, hcol⟩ := buildMesh_eq_ok hb
  have hxe := (itemOf_element hx).1
  have hmem : m.userData ∈ els := by rw [hud, hxe]; exact hxmem
  refine ⟨hmem, ?_⟩
  rw [← hud, chooseColor_of_isElement (hels _ hmem) h] at hcol
  simp only [Except.ok.injEq] at hcol
  rw [← hcol]
  simp only [highlightedBy, Bool.and_eq_true]
  split_ifs with h1 h2 h3
  · simp [h1]
  · simp [h1]
  · simp [h1]
  · simp [h1]

/-- Witness of C5 (amended): the initial state of the component. -/
theorem highlight_colour_iff_bounds_witness :
    ∃ s', handleVisualize initialState = .ok s' ∧
      ∀ m ∈ s'.mainGroup, m.userData ∈ sampleJsonData ∧
        (m.color = 0xef4444 ↔
          (truthy (some sampleHighlightJson) = true ∧
            strictEq (m.userData.prop "bounds") (sampleHighlightJson.prop "bounds") = true)) :=
  highlight_colour_iff_bounds initialState sampleJsonData sampleHighlightJson rfl rfl
    (by decide)

/-- C6, counterexample: a clickable element whose `information` is the
non-empty string of one space, with no highlight, is given the clickable
colour and not the labeled colour of the rule as stated. -/
theorem colour_priority_counterexample :
    chooseColor blankInformationElement .null = .ok 0x10b981 ∧
    specColor (sameNaturalKey blankInformationElement .null) blankInformationElement =
      0x8b5cf6 := by
  refine ⟨rfl, ?_⟩
  decide

/-- C6, amended: for an element and any highlight value the colour computed
by `handleVisualize` is that of the first rule that applies, in the order:
highlighted (`0xef4444`); `information` is a string that is not empty once
trimmed (labeled, `0x8b5cf6`); `is_clickable` is truthy (clickable,
`0x10b981`); otherwise default (`0xf59e0b`).  So a labeled element that is not
highlighted is labeled even when clickable, and a highlighted element is
highlighted even when labeled or clickable. -/
theorem colour_first_matching_rule (e h : JSValue) (he : isElement e = true) :
    chooseColor e h = .ok
      (if highlightedBy e h then 0xef4444
       else if hasLabel e then 0x8b5cf6
       else if truthy (e.prop "is_clickable") then 0x10b981
       else 0xf59e0b) ∧
    (highlightedBy e h = false → hasLabel e = true → chooseColor e h = .ok 0x8b5cf6) ∧
    (highlightedBy e h = true → chooseColor e h = .ok 0xef4444) := by
  have hc := chooseColor_of_isElement he h
  refine ⟨hc, ?_, ?_⟩
  · intro h1 h2
    rw [hc]; simp [h1, h2]
  · intro h1
    rw [hc]; simp [h1]

/-- Witness of C6 (amended): the highlighted sample element. -/
theorem colour_first_matching_rule_witness :
    chooseColor sampleHighlightJson sampleHighlightJson = .ok
      (if highlightedBy sampleHighlightJson sampleHighlightJson then 0xef4444
       else if hasLabel sampleHighlightJson then 0x8b5cf6
       else if truthy (sampleHighlightJson.prop "is_clickable") then 0x10b981
       else 0xf59e0b) ∧
    (highlightedBy sampleHighlightJson sampleHighlightJson = false →
      hasLabel sampleHighlightJson = true →
      chooseColor sampleHighlightJson sampleHighlightJson = .ok 0x8b5cf6) ∧
    (highlightedBy sampleHighlightJson sampleHighlightJson = true →
      chooseColor sampleHighlightJson sampleHighlightJson = .ok 0xef4444) :=
  colour_first_matching_rule sampleHighlightJson sampleHighlightJson (by decide)

/-- C7, counterexample: the draft `null` parses as JSON and the selected
element matches exactly the last sample element, yet with a note in the
information field the assignment to `null` throws, the handler reports the
invalid-JSON message and nothing is replaced. -/
theorem save_null_draft_counterexample :
    nullDraftState.highlightJsonInput.parse = .ok .null ∧
    sampleJsonData.map (fun e => sameNaturalKey e nullDraftState.selectedElement) =
      [false, false, false, false, false, true] ∧
    handleSaveHighlightChanges nullDraftState =
      showError nullDraftState "Invalid JSON format in highlight field!" :=
  ⟨rfl, by decide, rfl⟩

/-- C7, amended: for a collection of objects, a selected element whose
natural key matches the element at index `k` and no other, an information
text, and a draft that parses to a value that can take the information (an
object or an array, or any value when the trimmed information is empty),
`handleSaveHighlightChanges` yields a collection of the same length with the
committed element at index `k` and every other index unchanged. -/
theorem save_replaces_in_place (s : AppState) (els : List JSValue) (d : JSValue)
    (info : String) (k : Nat) (target : JSValue)
    (hjson : s.jsonInput = .valid (.arr els)) (hdraft : s.highlightJsonInput = .valid d)
    (hinfo : s.elementInfo = .str info) (hels : ∀ e ∈ els, isObject e = true)
    (hsel : isObject s.selectedElement = true)
    (hk : els[k]? = some target) (hmatch : sameNaturalKey target s.selectedElement = true)
    (honly : ∀ (j : Nat) (e : JSValue), els[j]? = some e →
      sameNaturalKey e s.selectedElement = true → j = k)
    (hacc : acceptsInformation d info = true) :
    ∃ committed newEls, mergeInformation d (jsTrim info) = .ok committed ∧
      (handleSaveHighlightChanges s).jsonInput.parse = .ok (.arr newEls) ∧
      newEls.length = els.length ∧ newEls[k]? = some committed ∧
      ∀ j : Nat, j ≠ k → newEls[j]? = els[j]? := by
  obtain ⟨committed, hmerge⟩ := mergeInformation_of_accepts hacc
  have hfirst : ∀ j e, j < k → els[j]? = some e →
      sameNaturalKey e s.selectedElement = false := by
    intro j e hj he
    cases hm : sameNaturalKey e s.selectedElement with
    | false => rfl
    | true => have := honly j e he hm; omega
  obtain ⟨hres, -⟩ := handleSave_spec s els d info k target committed hjson hdraft hinfo
    hels hsel hk hmatch hfirst hmerge
  have hlt : k < els.length := (List.getElem?_eq_some.mp hk).1
  refine ⟨committed, els.set k committed, hmerge, by rw [hres]; rfl, by simp, ?_, ?_⟩
  · simp [List.getElem?_set, hlt]
  · intro j hj
    simp [List.getElem?_set, Ne.symm hj]

/-- Witness of C7 (amended): saving the opened last sample element with a
note. -/
theorem save_replaces_in_place_witness :
    ∃ committed newEls,
      mergeInformation sampleHighlightJson (jsTrim "  search bar  ") = .ok committed ∧
      (handleSaveHighlightChanges editingState).jsonInput.parse = .ok (.arr newEls) ∧
      newEls.length = sampleJsonData.length ∧ newEls[5]? = some committed ∧
      ∀ j : Nat, j ≠ 5 → newEls[j]? = sampleJsonData[j]? :=
  save_replaces_in_place editingState sampleJsonData sampleHighlightJson "  search bar  " 5
    sampleHighlightJson rfl rfl rfl (by decide) rfl rfl (by decide)
    (by
      intro j e hj hm
      have hlt : j < 6 := (List.getElem?_eq_some.mp hj).1
      interval_cases j <;> first | rfl | (simp [sampleJsonData] at hj; subst hj; revert hm; decide))
    (by decide)

/-- C8: on a collection of objects, `handleDeleteElement` with the key of an
element leaves exactly the elements that do not match the key on all three
of `bounds`, `text` and `resource_id`, in their original order, and clears
the selection; when no element matches, the collection is unchanged. -/
theorem delete_removes_matching (s : AppState) (els : List JSValue) (del : JSValue)
    (hjson : s.jsonInput = .valid (.arr els)) (hels : ∀ e ∈ els, isObject e = true)
    (hdel : isObject del = true) :
    (handleDeleteElement s del).jsonInput.parse =
      .ok (.arr (els.filter (fun e => !sameNaturalKey e del))) ∧
    (els.filter (fun e => !sameNaturalKey e del)).Sublist els ∧
    (∀ e, e ∈ els.filter (fun e => !sameNaturalKey e del) ↔
      e ∈ els ∧ sameNaturalKey e del = false) ∧
    (handleDeleteElement s del).selectedElement = .null ∧
    ((∀ e ∈ els, sameNaturalKey e del = false) →
      (handleDeleteElement s del).jsonInput.parse = .ok (.arr els) ∧
      (els.filter (fun e => !sameNaturalKey e del)).length = els.length) := by
  have hspec := handleDeleteElement_spec s els del hjson hels hdel
  refine ⟨by rw [hspec]; rfl, List.filter_sublist _, ?_, by rw [hspec], ?_⟩
  · intro e
    simp [List.mem_filter]
  · intro hno
    have hfil : els.filter (fun e => !sameNaturalKey e del) = els := by
      apply List.filter_eq_self.mpr
      intro e he
      simp [hno e he]
    rw [hspec, hfil]
    exact ⟨rfl, rfl⟩

/-- Witness of C8: deleting the selected last sample element. -/
theorem delete_removes_matching_witness :
    (handleDeleteElement editingState sampleHighlightJson).jsonInput.parse =
      .ok (.arr (sampleJsonData.filter (fun e => !sameNaturalKey e sampleHighlightJson))) ∧
    (sampleJsonData.filter (fun e => !sameNaturalKey e sampleHighlightJson)).Sublist
      sampleJsonData ∧
    (∀ e, e ∈ sampleJsonData.filter (fun e => !sameNaturalKey e sampleHighlightJson) ↔
      e ∈ sampleJsonData ∧ sameNaturalKey e sampleHighlightJson = false) ∧
    (handleDeleteElement editingState sampleHighlightJson).selectedElement = .null ∧
    ((∀ e ∈ sampleJsonData, sameNaturalKey e sampleHighlightJson = false) →
      (handleDeleteElement editingState sampleHighlightJson).jsonInput.parse =
        .ok (.arr sampleJsonData) ∧
      (sampleJsonData.filter (fun e => !sameNaturalKey e sampleHighlightJson)).length =
        sampleJsonData.length) :=
  delete_removes_matching editingState sampleJsonData sampleHighlightJson rfl (by decide) rfl

/-- C9, counterexample: on a collection that holds the same element twice,
`handleDeleteElement` with its key removes both copies; the second one does
not remain. -/
theorem delete_duplicates_counterexample :
    duplicateState.jsonInput.parse.map (fun v => (uiElementsOf v).length) = .ok 2 ∧
    (handleDeleteElement duplicateState sampleHighlightJson).jsonInput.parse.map
      (fun v => (uiElementsOf v).length) = .ok 0 :=
  ⟨rfl, rfl⟩

/-- C9, amended: on a collection of objects in which the elements at indices
`i < j` both have the natural key of the selected element, the replace of
`handleSaveHighlightChanges` writes the committed element at the index `k` of
the first element with that key (the element at `k` has the key, no element
before `k` has it, and `k ≤ i`) and nowhere else, every other index, `j`
included, keeping its element; the remove of `handleDeleteElement` with that
key removes every matching element, both duplicates included, and keeps the
others. -/
theorem duplicates_replace_first_remove_all (s : AppState) (els : List JSValue)
    (d : JSValue) (info : String) (i j : Nat) (x y : JSValue)
    (hjson : s.jsonInput = .valid (.arr els)) (hdraft : s.highlightJsonInput = .valid d)
    (hinfo : s.elementInfo = .str info) (hels : ∀ e ∈ els, isObject e = true)
    (hsel : isObject s.selectedElement = true) (hij : i < j)
    (hi : els[i]? = some x) (hj : els[j]? = some y)
    (hx : sameNaturalKey x s.selectedElement = true)
    (hy : sameNaturalKey y s.selectedElement = true)
    (hacc : acceptsInformation d info = true) :
    (∃ committed k target, k ≤ i ∧ els[k]? = some target ∧
      sameNaturalKey target s.selectedElement = true ∧
      (∀ (n : Nat) (e : JSValue), n < k → els[n]? = some e →
        sameNaturalKey e s.selectedElement = false) ∧
      mergeInformation d (jsTrim info) = .ok committed ∧
      (handleSaveHighlightChanges s).jsonInput.parse = .ok (.arr (els.set k committed)) ∧
      (els.set k committed)[k]? = some committed ∧
      (els.set k committed)[j]? = some y ∧
      ∀ n : Nat, n ≠ k → (els.set k committed)[n]? = els[n]?) ∧
    (∃ kept, (handleDeleteElement s s.selectedElement).jsonInput.parse = .ok (.arr kept) ∧
      x ∉ kept ∧ y ∉ kept ∧
      (∀ e ∈ kept, sameNaturalKey e s.selectedElement = false) ∧
      kept = els.filter (fun e => !sameNaturalKey e s.selectedElement)) := by
  constructor
  · obtain ⟨committed, hmerge⟩ := mergeInformation_of_accepts hacc
    have hex : ∃ n, n ≤ i ∧ ∃ e, els[n]? = some e ∧
        sameNaturalKey e s.selectedElement = true := ⟨i, le_refl _, x, hi, hx⟩
    classical
    let k := Nat.find hex
    obtain ⟨hki, target, hk, hmatch⟩ := Nat.find_spec hex
    have hfirst : ∀ n e, n < k → els[n]? = some e →
        sameNaturalKey e s.selectedElement = false := by
      intro n e hn he
      cases hm : sameNaturalKey e s.selectedElement with
      | false => rfl
      | true =>
        have hkn : k ≤ n := Nat.find_min' hex ⟨by omega, e, he, hm⟩
        omega
    obtain ⟨hres, -⟩ := handleSave_spec s els d info k target committed hjson hdraft hinfo
      hels hsel hk hmatch hfirst hmerge
    have hlt : k < els.length := (List.getElem?_eq_some.mp hk).1
    have hkj : k ≠ j := by omega
    refine ⟨committed, k, target, hki, hk, hmatch, hfirst, hmerge, by rw [hres]; rfl, ?_, ?_, ?_⟩
    · simp [List.getElem?_set, hlt]
    · simp [List.getElem?_set, hkj, hj]
    · intro n hn
      simp [List.getElem?_set, Ne.symm hn]
  · have hspec := handleDeleteElement_spec s els s.selectedElement hjson hels hsel
    refine ⟨_, by rw [hspec]; rfl, ?_, ?_, ?_, rfl⟩
    · simp [List.mem_filter, hx]
    · simp [List.mem_filter, hy]
    · intro e he
      simpa using (List.mem_filter.mp he).2

/-- Witness of C9 (amended): the collection that holds the selected element
twice. -/
theorem duplicates_replace_first_remove_all_witness :
    (∃ committed k target, k ≤ 0 ∧
      [sampleHighlightJson, sampleHighlightJson][k]? = some target ∧
      sameNaturalKey target duplicateState.selectedElement = true ∧
      (∀ (n : Nat) (e : JSValue), n < k →
        [sampleHighlightJson, sampleHighlightJson][n]? = some e →
        sameNaturalKey e duplicateState.selectedElement = false) ∧
      mergeInformation sampleHighlightJson (jsTrim "  search bar  ") = .ok committed ∧
      (handleSaveHighlightChanges duplicateState).jsonInput.parse =
        .ok (.arr ([sampleHighlightJson, sampleHighlightJson].set k committed)) ∧
      ([sampleHighlightJson, sampleHighlightJson].set k committed)[k]? = some committed ∧
      ([sampleHighlightJson, sampleHighlightJson].set k committed)[1]? =
        some sampleHighlightJson ∧
      ∀ n : Nat, n ≠ k → ([sampleHighlightJson, sampleHighlightJson].set k committed)[n]? =
        [sampleHighlightJson, sampleHighlightJson][n]?) ∧
    (∃ kept, (handleDeleteElement duplicateState duplicateState.selectedElement).jsonInput.parse =
        .ok (.arr kept) ∧
      sampleHighlightJson ∉ kept ∧ sampleHighlightJson ∉ kept ∧
      (∀ e ∈ kept, sameNaturalKey e duplicateState.selectedElement = false) ∧
      kept = [sampleHighlightJson, sampleHighlightJson].filter
        (fun e => !sameNaturalKey e duplicateState.selectedElement)) :=
  duplicates_replace_first_remove_all duplicateState [sampleHighlightJson, sampleHighlightJson]
    sampleHighlightJson "  search bar  " 0 1 sampleHighlightJson sampleHighlightJson
    rfl rfl rfl (by decide) rfl (by decide) rfl rfl (by decide) (by decide) (by decide)

/-- C10: when the draft text is not valid JSON, `handleSaveHighlightChanges`
leaves the element collection, the selected element, the dirty flag (a set
flag stays set) and the saved screens as they were, and reports
`Invalid JSON format in highlight field!`. -/
theorem save_invalid_draft_keeps_state (s : AppState) (raw : String) :
    (handleSaveHighlightChanges { s with highlightJsonInput := .malformed raw }).jsonInput =
      s.jsonInput ∧
    (handleSaveHighlightChanges { s with highlightJsonInput := .malformed raw }).selectedElement =
      s.selectedElement ∧
    (handleSaveHighlightChanges
      { s with highlightJsonInput := .malformed raw }).isHighlightModified =
      s.isHighlightModified ∧
    (handleSaveHighlightChanges { s with highlightJsonInput := .malformed raw }).error =
      "Invalid JSON format in highlight field!" ∧
    (handleSaveHighlightChanges { s with highlightJsonInput := .malformed raw }).localStorage =
      s.localStorage := by
  have hprep : prepareSave { s with highlightJsonInput := .malformed raw } =
      .error .syntaxError := rfl
  have h : handleSaveHighlightChanges { s with highlightJsonInput := .malformed raw } =
      showError { s with highlightJsonInput := .malformed raw }
        "Invalid JSON format in highlight field!" := by
    simp only [handleSaveHighlightChanges, hprep]
  rw [h]
  exact ⟨rfl, rfl, rfl, rfl, rfl⟩

/-- C11, counterexample: the draft `[1, 2]` is valid JSON, the lookup
succeeds and the commit is reported as done with the non-empty information
`search bar`, yet the element written at the matched index is the array,
which has no `information` field. -/
theorem commit_array_draft_counterexample :
    arrayDraftState.highlightJsonInput.parse = .ok (.arr [.num 1, .num 2]) ∧
    lookupSelected arrayDraftState = .ok (some 5) ∧
    callTrim (some arrayDraftState.elementInfo) = .ok "search bar" ∧
    (handleSaveHighlightChanges arrayDraftState).error = "Element updated successfully!" ∧
    (handleSaveHighlightChanges arrayDraftState).jsonInput.parse.map
      (fun v => ((uiElementsOf v)[5]?).map (fun e => e.prop "information")) =
        .ok (some none) :=
  ⟨rfl, rfl, rfl, rfl, rfl⟩

/-- C11, amended: for a collection of objects, a draft that parses to a JSON
object, an information text that is not empty once trimmed and a selected
element whose key is first matched at index `k`, the element written at index
`k` has `information` equal to the trimmed text, whatever `information` the
draft held, and every other field as in the draft. -/
theorem commit_sets_information (s : AppState) (els : List JSValue)
    (fields : List (String × JSValue)) (info : String) (k : Nat) (target : JSValue)
    (hjson : s.jsonInput = .valid (.arr els))
    (hdraft : s.highlightJsonInput = .valid (.obj fields))
    (hinfo : s.elementInfo = .str info) (hne : jsTrim info ≠ "")
    (hels : ∀ e ∈ els, isObject e = true) (hsel : isObject s.selectedElement = true)
    (hk : els[k]? = some target) (hmatch : sameNaturalKey target s.selectedElement = true)
    (hfirst : ∀ (j : Nat) (e : JSValue), j < k → els[j]? = some e →
      sameNaturalKey e s.selectedElement = false) :
    ∃ written, (handleSaveHighlightChanges s).jsonInput.parse = .ok (.arr (els.set k written)) ∧
      (els.set k written)[k]? = some written ∧
      written.prop "information" = some (.str (jsTrim info)) ∧
      ∀ key, key ≠ "information" → written.prop key = fields.lookup key := by
  obtain ⟨fields', hset, hinf, hother⟩ := setProp_obj fields "information" (.str (jsTrim info))
  have hmerge : mergeInformation (.obj fields) (jsTrim info) = .ok (.obj fields') := by
    simp only [mergeInformation, bne_iff_ne, ne_eq, hne, not_false_eq_true, if_true, hset]
  obtain ⟨hres, -⟩ := handleSave_spec s els (.obj fields) info k target (.obj fields') hjson
    hdraft hinfo hels hsel hk hmatch hfirst hmerge
  have hlt : k < els.length := (List.getElem?_eq_some.mp hk).1
  refine ⟨.obj fields', by rw [hres]; rfl, by simp [List.getElem?_set, hlt], ?_, ?_⟩
  · rw [prop_obj]; exact hinf
  · intro key hkey
    rw [prop_obj]; exact hother key hkey

/-- Witness of C11 (amended): saving the opened last sample element with the
note `  search bar  `. -/
theorem commit_sets_information_witness :
    ∃ written, (handleSaveHighlightChanges editingState).jsonInput.parse =
        .ok (.arr (sampleJsonData.set 5 written)) ∧
      (sampleJsonData.set 5 written)[5]? = some written ∧
      written.prop "information" = some (.str (jsTrim "  search bar  ")) ∧
      ∀ key, key ≠ "information" → written.prop key =
        List.lookup key [("bounds", JSValue.str "[0,247][1080,412]"),
          ("class_name", .str "android.widget.FrameLayout"),
          ("is_clickable", .bool true), ("resource_id", .str "com.whatsapp:id/my_search_bar"),
          ("text", .str "Ask Meta AI or Search")] :=
  commit_sets_information editingState sampleJsonData _ "  search bar  " 5 sampleHighlightJson
    rfl rfl rfl (by decide) (by decide) rfl rfl (by decide)
    (by
      intro j e hj he
      interval_cases j <;> (simp [sampleJsonData] at he; subst he; decide))

/-- C12, counterexample: the selected element carries the information
`old note`, its draft is opened and the information field is cleared; the
commit is reported as done and the element written still has
`information` equal to `old note`. -/
theorem commit_cleared_information_counterexample :
    clearedInformationState.highlightJsonInput.parse = .ok labeledElement ∧
    callTrim (some clearedInformationState.elementInfo) = .ok "" ∧
    (handleSaveHighlightChanges clearedInformationState).error =
      "Element updated successfully!" ∧
    (handleSaveHighlightChanges clearedInformationState).jsonInput.parse.map
      (fun v => (uiElementsOf v).map (fun e => e.prop "information")) =
        .ok [some (.str "old note")] :=
  ⟨rfl, rfl, rfl, rfl⟩

/-- C12, amended: for a collection of objects, a draft that parses, an
information text that is empty once trimmed and a selected element whose key
is first matched at index `k`, the element written at index `k` is the parsed
draft itself: no `information` field is added or set to the empty string, and
the written element has no `information` field when the draft JSON has
none. -/
theorem commit_blank_information (s : AppState) (els : List JSValue) (d : JSValue)
    (info : String) (k : Nat) (target : JSValue)
    (hjson : s.jsonInput = .valid (.arr els)) (hdraft : s.highlightJsonInput = .valid d)
    (hinfo : s.elementInfo = .str info) (hblank : jsTrim info = "")
    (hels : ∀ e ∈ els, isObject e = true) (hsel : isObject s.selectedElement = true)
    (hk : els[k]? = some target) (hmatch : sameNaturalKey target s.selectedElement = true)
    (hfirst : ∀ (j : Nat) (e : JSValue), j < k → els[j]? = some e →
      sameNaturalKey e s.selectedElement = false) :
    ∃ written, (handleSaveHighlightChanges s).jsonInput.parse = .ok (.arr (els.set k written)) ∧
      (els.set k written)[k]? = some written ∧ written = d ∧
      (d.prop "information" = none → written.prop "information" = none) := by
  have hmerge : mergeInformation d (jsTrim info) = .ok d := by
    simp [mergeInformation, hblank, pure, Except.pure]
  obtain ⟨hres, -⟩ := handleSave_spec s els d info k target d hjson hdraft hinfo hels hsel hk
    hmatch hfirst hmerge
  have hlt : k < els.length := (List.getElem?_eq_some.mp hk).1
  exact ⟨d, by rw [hres]; rfl, by simp [List.getElem?_set, hlt], rfl, fun h => h⟩

/-- Witness of C12 (amended): the opened last sample element, which has no
information, saved with an information field of white space. -/
theorem commit_blank_information_witness :
    ∃ written, (handleSaveHighlightChanges blankInformationState).jsonInput.parse =
        .ok (.arr (sampleJsonData.set 5 written)) ∧
      (sampleJsonData.set 5 written)[5]? = some written ∧ written = sampleHighlightJson ∧
      (sampleHighlightJson.prop "information" = none → written.prop "information" = none) :=
  commit_blank_information blankInformationState sampleJsonData sampleHighlightJson "   " 5
    sampleHighlightJson rfl rfl rfl (by decide) (by decide) (by decide) rfl (by decide)
    (by
      intro j e hj he
      interval_cases j <;> (simp [sampleJsonData] at he; subst he; decide))

/-- C13, counterexample: the draft `null` parses and no element has the key
of the selected element, yet with a note in the information field the
message reported is the invalid-JSON one, not the not-found one. -/
theorem not_found_null_draft_counterexample :
    notFoundNullDraftState.highlightJsonInput.parse = .ok .null ∧
    sampleJsonData.map (fun e => sameNaturalKey e notFoundNullDraftState.selectedElement) =
      [false, false, false, false, false, false] ∧
    (handleSaveHighlightChanges notFoundNullDraftState).error =
      "Invalid JSON format in highlight field!" ∧
    (handleSaveHighlightChanges notFoundNullDraftState).error ≠
      "Could not find element to update." :=
  ⟨rfl, by decide, rfl, by decide⟩

/-- C13, amended: for a collection of objects and a draft that parses to a
value that can take the information (an object or an array, or any value
when the trimmed information is empty), when no element has the natural key
of the selected element `handleSaveHighlightChanges` leaves the collection
and the selected element (and the rest of the state) as they were and
reports `Could not find element to update.`. -/
theorem commit_not_found_keeps_state (s : AppState) (els : List JSValue) (d : JSValue)
    (info : String)
    (hjson : s.jsonInput = .valid (.arr els)) (hdraft : s.highlightJsonInput = .valid d)
    (hinfo : s.elementInfo = .str info) (hels : ∀ e ∈ els, isObject e = true)
    (hsel : isObject s.selectedElement = true)
    (hno : ∀ e ∈ els, sameNaturalKey e s.selectedElement = false)
    (hacc : acceptsInformation d info = true) :
    (handleSaveHighlightChanges s).jsonInput = s.jsonInput ∧
    (handleSaveHighlightChanges s).selectedElement = s.selectedElement ∧
    (handleSaveHighlightChanges s).error = "Could not find element to update." ∧
    handleSaveHighlightChanges s = showError s "Could not find element to update." := by
  have h := handleSave_not_found s els d info hjson hdraft hinfo hels hsel hno hacc
  rw [h]
  exact ⟨rfl, rfl, rfl, rfl⟩

/-- Witness of C13 (amended): an opened element that is not in the sample
collection. -/
theorem commit_not_found_keeps_state_witness :
    (handleSaveHighlightChanges notFoundState).jsonInput = notFoundState.jsonInput ∧
    (handleSaveHighlightChanges notFoundState).selectedElement =
      notFoundState.selectedElement ∧
    (handleSaveHighlightChanges notFoundState).error = "Could not find element to update." ∧
    handleSaveHighlightChanges notFoundState =
      showError notFoundState "Could not find element to update." :=
  commit_not_found_keeps_state notFoundState sampleJsonData sampleHighlightJson
    "  search bar  " rfl rfl rfl (by decide) (by decide) (by decide) (by decide)

/-- C14, counterexample: the second of two elements is opened and its draft
is given the key fields of the first; the commit replaces index 1 and selects
the committed element, and the lookup of the following commit finds index 0,
the other entry. -/
theorem following_commit_counterexample :
    lookupSelected collisionState = .ok (some 1) ∧
    (handleSaveHighlightChanges collisionState).error = "Element updated successfully!" ∧
    lookupSelected (handleSaveHighlightChanges collisionState) = .ok (some 0) :=
  ⟨rfl, rfl, rfl⟩

/-- C14, amended: for a collection of objects and a draft that parses to a
value that can take the information, the lookup of
`handleSaveHighlightChanges` uses the key of the selected (opened) element,
whatever key fields the draft has: the entry replaced is the first one, at
index `k`, that matches the selected element, and the committed element
becomes the selected element.  The lookup of an immediately following commit
finds that same index `k` when the committed element is an object whose key
fields are primitive values and no earlier element of the collection has the
committed key. -/
theorem commit_uses_opened_key (s : AppState) (els : List JSValue) (d : JSValue)
    (info : String) (k : Nat) (target : JSValue)
    (hjson : s.jsonInput = .valid (.arr els)) (hdraft : s.highlightJsonInput = .valid d)
    (hinfo : s.elementInfo = .str info) (hels : ∀ e ∈ els, isObject e = true)
    (hsel : isObject s.selectedElement = true)
    (hk : els[k]? = some target) (hmatch : sameNaturalKey target s.selectedElement = true)
    (hfirst : ∀ (j : Nat) (e : JSValue), j < k → els[j]? = some e →
      sameNaturalKey e s.selectedElement = false)
    (hacc : acceptsInformation d info = true) :
    ∃ committed, mergeInformation d (jsTrim info) = .ok committed ∧
      lookupSelected s = .ok (some k) ∧
      (handleSaveHighlightChanges s).jsonInput.parse = .ok (.arr (els.set k committed)) ∧
      (handleSaveHighlightChanges s).selectedElement = committed ∧
      (isObject committed = true → sameNaturalKey committed committed = true →
        (∀ (j : Nat) (e : JSValue), j < k → els[j]? = some e →
          sameNaturalKey e committed = false) →
        lookupSelected (handleSaveHighlightChanges s) = .ok (some k)) := by
  obtain ⟨committed, hmerge⟩ := mergeInformation_of_accepts hacc
  obtain ⟨hres, hselected, -, -⟩ := handleSave_spec s els d info k target committed hjson
    hdraft hinfo hels hsel hk hmatch hfirst hmerge
  have hlt : k < els.length := (List.getElem?_eq_some.mp hk).1
  have hfi := findIndex_first (fun el => sameKey el s.selectedElement)
    (fun el => sameNaturalKey el s.selectedElement) els
    (fun e he => sameKey_of_isObject (hels e he) hsel) k target hk hmatch hfirst
  refine ⟨committed, hmerge, ?_, by rw [hres]; rfl, hselected, ?_⟩
  · simp only [lookupSelected, hjson, JsonText.parse, asArray, bind, Except.bind, pure,
      Except.pure]
    exact hfi
  · intro hobj hself hearlier
    have hels2 : ∀ e ∈ els.set k committed, isObject e = true := by
      intro e he
      rcases List.mem_or_eq_of_mem_set he with h | h
      · exact hels e h
      · rw [h]; exact hobj
    have hfi2 := findIndex_first (fun el => sameKey el committed)
      (fun el => sameNaturalKey el committed) (els.set k committed)
      (fun e he => sameKey_of_isObject (hels2 e he) hobj) k committed
      (by simp [List.getElem?_set, hlt]) hself
      (by
        intro j e hj he
        have hjk : k ≠ j := by omega
        rw [List.getElem?_set_ne hjk] at he
        exact hearlier j e hj he)
    simp only [lookupSelected, hres, hselected, JsonText.parse, asArray, bind, Except.bind, pure,
      Except.pure]
    exact hfi2

/-- Witness of C14 (amended): saving the opened last sample element with a
note. -/
theorem commit_uses_opened_key_witness :
    ∃ committed, mergeInformation sampleHighlightJson (jsTrim "  search bar  ") = .ok committed ∧
      lookupSelected editingState = .ok (some 5) ∧
      (handleSaveHighlightChanges editingState).jsonInput.parse =
        .ok (.arr (sampleJsonData.set 5 committed)) ∧
      (handleSaveHighlightChanges editingState).selectedElement = committed ∧
      (isObject committed = true → sameNaturalKey committed committed = true →
        (∀ (j : Nat) (e : JSValue), j < 5 → sampleJsonData[j]? = some e →
          sameNaturalKey e committed = false) →
        lookupSelected (handleSaveHighlightChanges editingState) = .ok (some 5)) :=
  commit_uses_opened_key editingState sampleJsonData sampleHighlightJson "  search bar  " 5
    sampleHighlightJson rfl rfl rfl (by decide) (by decide) rfl (by decide)
    (by
      intro j e hj he
      interval_cases j <;> (simp [sampleJsonData] at he; subst he; decide))
    (by decide)

/-- C15: when the main JSON text cannot be parsed, `handleDeleteElement`
reports `Could not delete element. JSON may be malformed.` and changes
nothing else: the main JSON text and the selected element are as before. -/
theorem delete_malformed_keeps_state (s : AppState) (raw : String) (elementToDelete : JSValue) :
    handleDeleteElement { s with jsonInput := .malformed raw } elementToDelete =
      showError { s with jsonInput := .malformed raw }
        "Could not delete element. JSON may be malformed." ∧
    (handleDeleteElement { s with jsonInput := .malformed raw } elementToDelete).jsonInput =
      .malformed raw ∧
    (handleDeleteElement { s with jsonInput := .malformed raw } elementToDelete).selectedElement =
      s.selectedElement ∧
    (handleDeleteElement { s with jsonInput := .malformed raw } elementToDelete).error =
      "Could not delete element. JSON may be malformed." := by
  have hdel : deleteElements { s with jsonInput := .malformed raw } elementToDelete =
      .error .syntaxError := rfl
  have h : handleDeleteElement { s with jsonInput := .malformed raw } elementToDelete =
      showError { s with jsonInput := .malformed raw }
        "Could not delete element. JSON may be malformed." := by
    simp only [handleDeleteElement, hdel]
  rw [h]
  exact ⟨rfl, rfl, rfl, rfl⟩

/-- C16, counterexample: importing the screen object whose `screenId` is the
empty string does not detect the screen format; the export payload then has
the former screen name as `screenId` and the whole screen object, not its
element list, as `elements`. -/
theorem round_trip_empty_screen_id_counterexample :
    emptyIdScreen.prop "screenId" = some (.str "") ∧
    emptyIdScreen.prop "elements" = some (.arr sampleJsonData) ∧
    (exportScreenData (handleJsonInputChange initialState emptyIdScreen.stringify)).map
      (fun payload => (payload.prop "screenId", payload.prop "elements")) =
        .ok (some (.str "login_screen"), some emptyIdScreen) :=
  ⟨rfl, rfl, rfl⟩

/-- C16, amended: importing the text of a bare array of elements through
`handleJsonInputChange` and building the export payload gives an object
`{screenId, elements}` whose `elements` is that array, and importing the
text of an object `{screenId, elements}` whose `screenId` is not empty
(truthy) and whose `elements` is an array gives a payload whose `elements`
is that array and whose `screenId` is that `screenId`. -/
theorem export_import_round_trip :
    (∀ (s : AppState) (els : List JSValue),
      ∃ name, exportScreenData (handleJsonInputChange s (JSValue.arr els).stringify) =
        .ok (.obj [("screenId", name), ("elements", .arr els)])) ∧
    (∀ (s : AppState) (fields : List (String × JSValue)) (screenId : JSValue)
      (els : List JSValue),
      fields.lookup "screenId" = some screenId → truthy (some screenId) = true →
      fields.lookup "elements" = some (.arr els) →
      exportScreenData (handleJsonInputChange s (JSValue.obj fields).stringify) =
        .ok (.obj [("screenId", screenId), ("elements", .arr els)])) := by
  constructor
  · intro s els
    exact ⟨_, rfl⟩
  · intro s fields screenId els hid htruthy hels
    simp [handleJsonInputChange, exportScreenData, JSValue.stringify, JsonText.parse,
      getProp_obj, hid, htruthy, hels, orElseValue, bind, Except.bind, pure, Except.pure]

/-- Witness of C16 (amended): the named screen object imported in the initial
state. -/
theorem export_import_round_trip_witness :
    exportScreenData (handleJsonInputChange initialState namedScreen.stringify) =
      .ok (.obj [("screenId", .str "home_screen"), ("elements", .arr sampleJsonData)]) :=
  export_import_round_trip.2 initialState _ (.str "home_screen") sampleJsonData rfl rfl rfl

/-- C17, failing input: in the labeling interface, with a main JSON text
that does not parse, the labeled count evaluated while rendering throws; so
it does after the text `[` is typed in the field, and with a main JSON that
parses to something that is not an array. -/
theorem render_throws_on_malformed_json :
    (∀ (s : AppState) (raw : String),
      renderInfo { s with isZipUploaded := true, jsonInput := .malformed raw } =
        .error .syntaxError) ∧
    renderInfo typingState = .error .syntaxError ∧
    renderInfo { initialState with isZipUploaded := true,
                                   jsonInput := (JSValue.obj []).stringify } =
      .error .typeError :=
  ⟨fun _ _ => rfl, rfl, rfl⟩

/-- C18, failing input: for a truthy `bounds` that is not a string (a number,
`true`, an array, an object) `parseBounds` throws, and the exception escapes
`handleVisualize`. -/
theorem parseBounds_throws_on_non_string :
    parseBounds (some (.num 5)) = .error .typeError ∧
    parseBounds (some (.bool true)) = .error .typeError ∧
    parseBounds (some (.arr [])) = .error .typeError ∧
    parseBounds (some (.obj [])) = .error .typeError ∧
    handleVisualize numericBoundsState = .error .typeError :=
  ⟨rfl, rfl, rfl, rfl, rfl⟩

/-- C19: on a collection of elements the count `elementCount` set by
`handleVisualize` is the number of meshes built, which is the number of
elements of the collection with parseable bounds; with an element without
bounds in front of the six sample elements the count is 6, not 7. -/
theorem elementCount_counts_volumes :
    (∀ (s : AppState) (els : List JSValue) (h : JSValue), s.sceneReady = true →
      parseInputs s = .ok (.arr els, h) → (∀ e ∈ els, isElement e = true) →
      ∃ s', handleVisualize s = .ok s' ∧ s'.elementCount = s'.mainGroup.length ∧
        s'.elementCount = (els.filter (fun e => (elementBounds e).isSome)).length) ∧
    (handleVisualize noBoundsState).map (fun s' => (s'.elementCount, s'.mainGroup.length)) =
      .ok (6, 6) ∧
    (noBoundsElement :: sampleJsonData).length = 7 := by
  refine ⟨?_, rfl, rfl⟩
  intro s els h hready hparse hels
  obtain ⟨s', hv, -, hcount, hlen, -⟩ := handleVisualize_spec s els h hready hparse hels
  refine ⟨s', hv, by rw [hcount, hlen], ?_⟩
  rw [hcount, (arraySort_perm _ _).length_eq, ← filterMap_itemOf_element, List.length_map]

/-- Witness of C19: the initial state of the component. -/
theorem elementCount_counts_volumes_witness :
    ∃ s', handleVisualize initialState = .ok s' ∧ s'.elementCount = s'.mainGroup.length ∧
      s'.elementCount = (sampleJsonData.filter (fun e => (elementBounds e).isSome)).length :=
  elementCount_counts_volumes.1 initialState sampleJsonData sampleHighlightJson rfl rfl
    (by decide)

/-- C21: on a scene that exists, when the main JSON text does not parse, or
the highlight text is not blank and does not parse, `handleVisualize` returns
with the message `Invalid JSON format!` and leaves the meshes built before,
the hovered mesh with its outline and tooltip, and the element count as they
were. -/
theorem visualize_aborts_on_parse_error (s : AppState) (hready : s.sceneReady = true)
    (hfail : (∃ raw, s.jsonInput = .malformed raw) ∨
      (∃ raw, s.highlightJsonInput = .malformed raw ∧ jsTrim raw ≠ "")) :
    ∃ s', handleVisualize s = .ok s' ∧ s'.error = "Invalid JSON format!" ∧
      s'.mainGroup = s.mainGroup ∧ s'.intersectedObject = s.intersectedObject ∧
      s'.outlineMesh = s.outlineMesh ∧ s'.tooltipShown = s.tooltipShown ∧
      s'.elementCount = s.elementCount ∧ s'.jsonInput = s.jsonInput ∧
      s'.isLoading = false := by
  have hparse : ∃ e, parseInputs s = .error e := by
    rcases hfail with ⟨raw, hraw⟩ | ⟨raw, hraw, hblank⟩
    · exact ⟨.syntaxError, by simp [parseInputs, hraw, JsonText.parse, bind, Except.bind]⟩
    · have hb : s.highlightJsonInput.isBlank = false := by
        simp [hraw, JsonText.isBlank, hblank]
      have hh : s.highlightJsonInput.parse = .error .syntaxError := by rw [hraw]; rfl
      cases hj : s.jsonInput.parse with
      | error e => exact ⟨e, by simp [parseInputs, hj, bind, Except.bind]⟩
      | ok v => exact ⟨.syntaxError, by simp [parseInputs, hj, hb, hh, bind, Except.bind]⟩
  obtain ⟨e, he⟩ := hparse
  refine ⟨{ showError s "Invalid JSON format!" with isLoading := false }, ?_, rfl, rfl, rfl,
    rfl, rfl, rfl, rfl, rfl⟩
  simp only [handleVisualize, hready, Bool.not_true, Bool.false_eq_true, if_false, he, pure,
    Except.pure]

/-- Witness of C21: the six sample boxes are in the scene and the text `[` is
typed in the main JSON field. -/
theorem visualize_aborts_on_parse_error_witness :
    brokenJsonState.mainGroup.length = 6 ∧
    ∃ s', handleVisualize brokenJsonState = .ok s' ∧ s'.error = "Invalid JSON format!" ∧
      s'.mainGroup = brokenJsonState.mainGroup ∧
      s'.intersectedObject = brokenJsonState.intersectedObject ∧
      s'.outlineMesh = brokenJsonState.outlineMesh ∧
      s'.tooltipShown = brokenJsonState.tooltipShown ∧
      s'.elementCount = brokenJsonState.elementCount ∧
      s'.jsonInput = brokenJsonState.jsonInput ∧ s'.isLoading = false :=
  ⟨rfl, visualize_aborts_on_parse_error brokenJsonState rfl (Or.inl ⟨"[", rfl⟩)⟩

/-- C22, failing input: the archive of the two files `a.json` and `a.png`,
whose stem is not a number, gives a screen, of number `NaN` and name
`screen_a`; and the archive with the pairs of stems `2`, `a` and `1` gives
three screens, one of them of number `NaN`, so that the list cannot be in
ascending order of number. -/
theorem zip_pairing_keeps_non_numeric_stem :
    pairScreens letterArchive =
      [{ number := .nan, json := .malformed "", screenshot := "data:image/png;base64,",
         screenName := "screen_a" }] ∧
    ((pairScreens mixedArchive).map (fun σ => (σ.number, σ.screenName))).Perm
      [(.finite 1, "screen_1"), (.finite 2, "screen_2"), (.nan, "screen_a")] ∧
    (∀ x : JSNumber, (x.sub .nan).isPositive = false ∧ (JSNumber.nan.sub x).isPositive = false) := by
  refine ⟨rfl, by decide, ?_⟩
  intro x
  cases x <;> exact ⟨rfl, rfl⟩

/-- C23, failing input: a screen whose bundled JSON is a screen object, loaded
twice from an empty store.  The first call takes the element list and the
screen name from the object and saves the bundled text; the second call finds
that record and puts the whole screen object in the main JSON, on which the
labeled count of the next render throws. -/
theorem loadScreen_twice_differs :
    loadFromLocalStorage emptyStoreState bundledScreen.number = none ∧
    (loadScreen emptyStoreState bundledScreen).jsonInput.parse = .ok (.arr sampleJsonData) ∧
    (loadScreen (loadScreen emptyStoreState bundledScreen) bundledScreen).jsonInput.parse =
      .ok namedScreen ∧
    renderInfo (loadScreen emptyStoreState bundledScreen) = .ok (some 0) ∧
    renderInfo (loadScreen (loadScreen emptyStoreState bundledScreen) bundledScreen) =
      .error .typeError :=
  ⟨rfl, rfl, rfl, rfl, rfl⟩

end UIVisualizer
